import Mathlib

set_option maxRecDepth 8000

/-!
Verification development for the TranslationCostCalculator core.

This file gives a shallow embedding, in Lean 4, of the parts of the
program that the specification talks about:

* the match-category enumeration (`src/core/models/match_category.py`),
* the per-category analysis data and its TM/MT word split
  (`src/core/models/analysis.py`),
* the rate model, rate-hierarchy resolution and project cost calculation
  (`src/core/models/rate.py`),
* the cost-breakdown computation
  (`src/core/services/calculation_service.py`),
* the Trados column detector and mapping validation
  (`src/parsers/column_detector.py`), and
* the row parsing and safe numeric conversions
  (`src/parsers/trados_csv_parser.py`).

Modelling conventions:

* Python `int` is `Int`; Python `Decimal` is `ℚ` (decimal values are a
  subset of the rationals, and all Decimal arithmetic used by the code -
  addition, multiplication, comparison, `quantize` - is exact over ℚ).
  `Decimal.quantize` with the default context rounding (ROUND_HALF_EVEN)
  is modelled by `quantizeHalfEven`.
* Python `float` is modelled by `PyFloat`: an exact rational plus the
  special values `inf`, `neginf` and `nan`.  Rounding of finite decimal
  literals to binary doubles is not modelled (every literal exercised by
  a theorem below is exactly representable); overflow of `float(str)` to
  infinity is modelled with the IEEE-754 double overflow threshold
  `2^1024 - 2^970`.  Python float→int truncation is `ratTrunc`.
* Python `/` on two ints (true division) produces a double: it is
  modelled exactly by `intTrueDiv`, which rounds the exact quotient to
  the nearest binary64 value, ties to the even mantissa
  (`roundToDouble`), and raises `OverflowError` when the result leaves
  the double range, as CPython's `long_true_divide` does.
* Python dictionaries are association lists (`List (κ × α)`) preserving
  insertion order; `dict.get` is `List.lookup`, and item assignment is
  `dictInsert` (update in place, append if the key is new).
* Fallible code (paths that can raise) returns `Except PyError _`;
  functions that swallow every possible exception return plain values.
* `datetime` metadata, logging, and the `float(...)` casts the code
  performs on already-computed Decimal values purely for JSON display
  are not modelled (the cast does not feed back into any computation).

Source strings are quoted in comments next to each definition so the
embedding can be diffed against the Python code.
-/

namespace TCC

/-- Errors a modelled Python code path can raise. -/
inductive PyError where
  | valueError
  | typeError
  | overflowError
  | attributeError
  | zeroDivisionError
deriving DecidableEq

/-- Decidable equality for `Except`, so concrete outcomes of fallible
code paths can be settled by `decide`. -/
instance {ε α : Type} [DecidableEq ε] [DecidableEq α] : DecidableEq (Except ε α) :=
  fun x y =>
    match x, y with
    | .ok a, .ok b =>
      if h : a = b then .isTrue (by rw [h]) else .isFalse (fun hh => h (Except.ok.inj hh))
    | .error e, .error f =>
      if h : e = f then .isTrue (by rw [h]) else .isFalse (fun hh => h (Except.error.inj hh))
    | .ok _, .error _ => .isFalse (fun hh => Except.noConfusion hh)
    | .error _, .ok _ => .isFalse (fun hh => Except.noConfusion hh)

/-! ### Kernel-computable rational arithmetic

Batteries marks the arithmetic of `ℚ` `@[irreducible]`, and Mathlib's
order/floor instances on `ℚ` do not reduce either, so closed facts about
them cannot be settled by `decide`.  The embedding therefore uses the
following operations, defined directly on numerator and denominator;
bridge lemmas below prove each one equal to the corresponding Mathlib
operation, so symbolic proofs can still use the Mathlib vocabulary. -/

/-- Exact rational addition, kernel-computable. -/
def qAdd (a b : ℚ) : ℚ :=
  Rat.divInt (a.num * (b.den : Int) + b.num * (a.den : Int)) ((a.den : Int) * (b.den : Int))

/-- Exact rational subtraction, kernel-computable. -/
def qSub (a b : ℚ) : ℚ :=
  Rat.divInt (a.num * (b.den : Int) - b.num * (a.den : Int)) ((a.den : Int) * (b.den : Int))

/-- Exact rational multiplication, kernel-computable. -/
def qMul (a b : ℚ) : ℚ :=
  Rat.divInt (a.num * b.num) ((a.den : Int) * (b.den : Int))

/-- Exact rational division, kernel-computable. -/
def qDiv (a b : ℚ) : ℚ :=
  Rat.divInt (a.num * (b.den : Int)) ((a.den : Int) * b.num)

/-- Exact rational negation, kernel-computable. -/
def qNeg (a : ℚ) : ℚ :=
  Rat.divInt (-a.num) (a.den : Int)

/-- Rational maximum (`if a ≤ b then b else a`), kernel-computable. -/
def qMax (a b : ℚ) : ℚ :=
  if a ≤ b then b else a

/-- Rational minimum (`if a ≤ b then a else b`), kernel-computable. -/
def qMin (a b : ℚ) : ℚ :=
  if a ≤ b then a else b

/-- Floor of a rational, kernel-computable. -/
def qFloor (q : ℚ) : Int :=
  q.num.fdiv (q.den : Int)

/-- Absolute value of a rational, kernel-computable. -/
def qAbs (q : ℚ) : ℚ :=
  if q < 0 then qNeg q else q

/-- `10 ^ k` as a rational, kernel-computable. -/
def ratPow10 (k : ℕ) : ℚ :=
  Rat.divInt (Int.ofNat (Nat.pow 10 k)) 1

/-- `2 ^ k` for an integer exponent `k` as a rational, kernel-computable
(used for the binary grids of IEEE-754 doubles). -/
def qPow2 (k : Int) : ℚ :=
  if 0 ≤ k then Rat.divInt (Int.ofNat (Nat.pow 2 k.toNat)) 1
  else Rat.divInt 1 (Int.ofNat (Nat.pow 2 (-k).toNat))

/-! ### String primitives

Core `String` functions such as `splitOn`, `trim` and `replace` are
defined by well-founded recursion and do not reduce in the kernel, so
the Python string operations are implemented here structurally over
`String.data` (the character list). -/

/-- Structural worker for `pySplit`: fuel is at least the length of the
unread input, so it never runs out on real input. -/
def pySplitGo (sep : List Char) : List Char → List Char → Nat → List (List Char)
  | rest, cur, 0 => [cur.reverse ++ rest]
  | rest, cur, fuel + 1 =>
    match rest with
    | [] => [cur.reverse]
    | c :: cs =>
      if sep.isPrefixOf rest then
        cur.reverse :: pySplitGo sep (rest.drop sep.length) [] fuel
      else pySplitGo sep cs (c :: cur) fuel

/-- Python `s.split(sep)` for a nonempty separator: non-overlapping
matches, scanned left to right; `""` splits to `[""]`. -/
def pySplit (s sep : String) : List String :=
  if sep.data.isEmpty then [s]
  else (pySplitGo sep.data s.data [] s.data.length).map String.mk

/-- Structural worker for `pyReplace`. -/
def pyReplaceGo (old new : List Char) : List Char → Nat → List Char
  | [], _ => []
  | rest, 0 => rest
  | c :: cs, fuel + 1 =>
    if old.isPrefixOf (c :: cs) then
      new ++ pyReplaceGo old new ((c :: cs).drop old.length) fuel
    else c :: pyReplaceGo old new cs fuel

/-- Python `s.replace(old, new)` for a nonempty `old`: replace every
non-overlapping occurrence, left to right. -/
def pyReplace (s old new : String) : String :=
  if old.data.isEmpty then s
  else String.mk (pyReplaceGo old.data new.data s.data s.data.length)

/-- The whitespace characters Python `str.strip()` removes (the ASCII
ones; no header processed here carries non-ASCII whitespace). -/
def pyIsSpace (c : Char) : Bool :=
  c == ' ' || c == '\t' || c == '\n' || c == '\r' || c == '\x0b' || c == '\x0c'

/-- Python `s.strip()`: drop whitespace from both ends. -/
def pyTrim (s : String) : String :=
  String.mk (((s.data.dropWhile pyIsSpace).reverse.dropWhile pyIsSpace).reverse)

/-- ASCII lower-casing of one character (all strings the code
lower-cases are ASCII header tokens). -/
def charLower (c : Char) : Char :=
  if 'A' ≤ c ∧ c ≤ 'Z' then Char.ofNat (c.toNat + 32) else c

/-- Python `s.lower()`. -/
def pyToLower (s : String) : String :=
  String.mk (s.data.map charLower)

/-- Python `s.startswith(p)`. -/
def pyStartsWith (s p : String) : Bool :=
  p.data.isPrefixOf s.data

/-- Drop the first `n` characters of a string. -/
def pyDrop (s : String) (n : Nat) : String :=
  String.mk (s.data.drop n)

/-- Python `c in s` for a single character. -/
def strContainsChar (s : String) (c : Char) : Bool :=
  s.data.any (fun d => d == c)

/-- Python `sub in s` (substring test, case sensitive) for nonempty `sub`:
`pySplit` yields more than one piece exactly when `sub` occurs in `s`. -/
def strContains (s sub : String) : Bool :=
  (pySplit s sub).length != 1

/-- Python `s.strip(chars)`: drop characters of `cs` from both ends. -/
def pyStrip (s : String) (cs : List Char) : String :=
  String.mk (((s.toList.dropWhile (cs.contains ·)).reverse.dropWhile (cs.contains ·)).reverse)

/-- Value of a nonempty all-digit string, `none` otherwise. -/
def digitsVal (s : String) : Option Nat :=
  if s ≠ "" ∧ s.toList.all Char.isDigit then
    some (s.toList.foldl (fun a c => a * 10 + (c.toNat - 48)) 0)
  else none

/-- Python `int(str)` on an already-stripped string: optional sign then
digits (underscore digit grouping is not modelled). -/
def pyIntOfString (s : String) : Option Int :=
  let t := pyTrim s
  if pyStartsWith t "-" then (digitsVal (pyDrop t 1)).map (fun n => -(n : Int))
  else if pyStartsWith t "+" then (digitsVal (pyDrop t 1)).map (fun n => (n : Int))
  else (digitsVal t).map (fun n => (n : Int))

/-- A Python `float` value: exact finite rational or a special value. -/
inductive PyFloat where
  | finite (q : ℚ)
  | inf
  | neginf
  | nan
deriving DecidableEq

/-- IEEE-754 double overflow threshold: a real with magnitude at or above
`2^1024 - 2^970` rounds to infinity under round-to-nearest-even. -/
def floatOverflowThreshold : ℚ :=
  Rat.divInt (Int.ofNat (Nat.pow 2 1024 - Nat.pow 2 970)) 1

/-- Convert an exact rational literal value to the `PyFloat` it produces. -/
def ratToPyFloat (q : ℚ) : PyFloat :=
  if floatOverflowThreshold ≤ q then .inf
  else if q ≤ qNeg floatOverflowThreshold then .neginf
  else .finite q

/-- Apply a base-10 exponent to a rational. -/
def applyExp (q : ℚ) (e : Int) : ℚ :=
  if 0 ≤ e then qMul q (ratPow10 e.toNat) else qDiv q (ratPow10 (-e).toNat)

/-- Parse the exponent part of a float literal: optional sign, digits. -/
def parseExponent (s : String) : Option Int :=
  if pyStartsWith s "-" then (digitsVal (pyDrop s 1)).map (fun n => -(n : Int))
  else if pyStartsWith s "+" then (digitsVal (pyDrop s 1)).map (fun n => (n : Int))
  else (digitsVal s).map (fun n => (n : Int))

/-- Parse the mantissa of a float literal: `digits`, `digits.digits`,
`digits.` or `.digits` (at least one digit in total); the value is
`intpart + fracpart / 10 ^ fracdigits`, built as one exact fraction. -/
def parseMantissa (s : String) : Option ℚ :=
  match pySplit s "." with
  | [ip] => (digitsVal ip).map (fun n => Rat.divInt (Int.ofNat n) 1)
  | [ip, fp] =>
    if ip = "" ∧ fp = "" then none
    else
      let ipOk := ip = "" ∨ (digitsVal ip).isSome
      let fpOk := fp = "" ∨ (digitsVal fp).isSome
      if ipOk ∧ fpOk then
        let scale := Nat.pow 10 fp.length
        some (Rat.divInt
          (Int.ofNat ((digitsVal ip).getD 0 * scale + (digitsVal fp).getD 0))
          (Int.ofNat scale))
      else none
  | _ => none

/-- Python `float(str)`: sign, then `inf`/`infinity`/`nan` (case
insensitive) or a decimal literal with optional exponent; `none` models
`ValueError`. -/
def pyFloatOfString (s : String) : Option PyFloat :=
  let t := pyTrim s
  let (isNeg, rest) :=
    if pyStartsWith t "-" then (true, pyDrop t 1)
    else if pyStartsWith t "+" then (false, pyDrop t 1)
    else (false, t)
  let low := pyToLower rest
  if low = "inf" ∨ low = "infinity" then
    some (if isNeg then .neginf else .inf)
  else if low = "nan" then some .nan
  else
    let signed : ℚ → ℚ := fun q => if isNeg then qNeg q else q
    match pySplit low "e" with
    | [mant] => (parseMantissa mant).map (fun q => ratToPyFloat (signed q))
    | [mant, ex] => do
      let q ← parseMantissa mant
      let e ← parseExponent ex
      pure (ratToPyFloat (applyExp (signed q) e))
    | _ => none

/-- Truncation toward zero, as Python `int(float)` on a finite value. -/
def ratTrunc (q : ℚ) : Int :=
  q.num.tdiv (q.den : Int)

/-- Python `int(x)` for a float `x`: truncates finite values, raises
`OverflowError` on infinities and `ValueError` on nan. -/
def pyFloatToInt : PyFloat → Except PyError Int
  | .finite q => .ok (ratTrunc q)
  | .inf => .error .overflowError
  | .neginf => .error .overflowError
  | .nan => .error .valueError

/-- Round a rational to an integer, ties to the even integer (the rounding
used by Python `Decimal.quantize` under the default context). -/
def roundHalfEven (x : ℚ) : ℤ :=
  let n := qFloor x
  let f := qSub x (Rat.divInt n 1)
  if f < Rat.divInt 1 2 then n
  else if Rat.divInt 1 2 < f then n + 1
  else if n % 2 = 0 then n else n + 1

/-- `Decimal.quantize` to `d` decimal places with the default context
rounding ROUND_HALF_EVEN. -/
def quantizeHalfEven (d : ℕ) (q : ℚ) : ℚ :=
  qDiv (Rat.divInt (roundHalfEven (qMul q (ratPow10 d))) 1) (ratPow10 d)

/-- Binary search for the binade of `a`: under the invariants
`2^lo ≤ a < 2^hi`, `lo < hi` and `hi - lo ≤ 2^fuel` it returns the
unique `e` with `2^e ≤ a < 2^(e+1)`. -/
def findEGo : Nat → Int → Int → ℚ → Int
  | 0, lo, _, _ => lo
  | fuel + 1, lo, hi, a =>
    if hi ≤ lo + 1 then lo
    else
      let mid := Int.ediv (lo + hi) 2
      if a < qPow2 mid then findEGo fuel lo mid a else findEGo fuel mid hi a

/-- The binade exponent of a rational in `[2^(-1022), 2^1024)` (the
normal range of a finite double): the unique `e` with `2^e ≤ a < 2^(e+1)`. -/
def findE (a : ℚ) : Int :=
  findEGo 12 (-1022) 1024 a

/-- Round a positive rational to the nearest IEEE-754 binary64 value
(ties to the even mantissa), returned as the exact rational that double
denotes.  A normal magnitude in `[2^e, 2^(e+1))` rounds on the grid of
spacing `2^(e-52)`; a magnitude below `2^(-1022)` rounds on the
subnormal grid of spacing `2^(-1074)`. -/
def roundToDoublePos (a : ℚ) : ℚ :=
  if a < qPow2 (-1022) then
    qMul (Rat.divInt (roundHalfEven (qMul a (qPow2 1074))) 1) (qPow2 (-1074))
  else
    qMul (Rat.divInt (roundHalfEven (qMul a (qPow2 (52 - findE a)))) 1)
      (qPow2 (findE a - 52))

/-- Round a rational to the nearest IEEE-754 binary64 value, ties to the
even mantissa (rounding is symmetric in the sign).  Callers check the
overflow threshold first, so the magnitude is below `2^1024 - 2^970`. -/
def roundToDouble (q : ℚ) : ℚ :=
  if q = 0 then 0
  else if q < 0 then qNeg (roundToDoublePos (qAbs q))
  else roundToDoublePos (qAbs q)

/-- CPython `a / b` on ints (`long_true_divide`): the exact quotient
correctly rounded to the nearest double (ties to even);
`ZeroDivisionError` on a zero divisor and `OverflowError` when the
rounded result would leave the double range (exact quotient magnitude at
or above `2^1024 - 2^970`). -/
def intTrueDiv (a b : Int) : Except PyError ℚ :=
  if b = 0 then .error .zeroDivisionError
  else if floatOverflowThreshold ≤ qAbs (Rat.divInt a b) then .error .overflowError
  else .ok (roundToDouble (Rat.divInt a b))

/-- Modelled from the spec: round-half-up (ties away from zero) to an
integer. The spec asserts the grand total uses this rounding; the code
does not, so this definition exists only to be compared against
`quantizeHalfEven`. -/
def roundHalfUp (x : ℚ) : ℤ :=
  if 0 ≤ x then ⌊x + 1 / 2⌋ else -⌊-x + 1 / 2⌋

/-- Modelled from the spec: quantization to `d` decimal places with
round-half-up, the rounding the spec claims for the grand total. -/
def quantizeHalfUp (d : ℕ) (q : ℚ) : ℚ :=
  (roundHalfUp (q * 10 ^ d) : ℚ) / 10 ^ d

/-- Association-list update with Python dict semantics: replace the value
at the first occurrence of the key, else append the new binding. -/
def dictInsert {α : Type} [BEq α] {β : Type} : List (α × β) → α → β → List (α × β)
  | [], k, v => [(k, v)]
  | p :: rest, k, v =>
    if p.1 == k then (k, v) :: rest else p :: dictInsert rest k v

/-- Truthiness of an optional integer, as Python `if client_id:` sees it:
`None` and `0` are falsy. -/
def intOptionTruthy : Option Int → Bool
  | none => false
  | some x => x != 0

/-! ## Match categories (`src/core/models/match_category.py`) -/

/-- `MatchCategoryType`: the nine match-quality buckets. -/
inductive MatchCategoryType where
  | CONTEXT_MATCH
  | REPETITIONS
  | EXACT_MATCH
  | HIGH_FUZZY
  | MEDIUM_HIGH_FUZZY
  | MEDIUM_FUZZY
  | LOW_FUZZY
  | NO_MATCH
  | MT_MATCH
deriving DecidableEq

/-- The enum member value (its display name). -/
def MatchCategoryType.value : MatchCategoryType → String
  | .CONTEXT_MATCH => "Context Match"
  | .REPETITIONS => "Repetitions"
  | .EXACT_MATCH => "100%"
  | .HIGH_FUZZY => "95% - 99%"
  | .MEDIUM_HIGH_FUZZY => "85% - 94%"
  | .MEDIUM_FUZZY => "75% - 84%"
  | .LOW_FUZZY => "50% - 74%"
  | .NO_MATCH => "No Match"
  | .MT_MATCH => "MT Match"

/-- `get_standard_categories`: the 8 standard categories, excluding MT. -/
def MatchCategoryType.get_standard_categories : List MatchCategoryType :=
  [.CONTEXT_MATCH, .REPETITIONS, .EXACT_MATCH, .HIGH_FUZZY,
   .MEDIUM_HIGH_FUZZY, .MEDIUM_FUZZY, .LOW_FUZZY, .NO_MATCH]

/-- `supports_mt_breakdown`: only the 100% exact-match category. -/
def MatchCategoryType.supports_mt_breakdown (c : MatchCategoryType) : Bool :=
  c == .EXACT_MATCH

/-! ## Per-category analysis data (`src/core/models/analysis.py`) -/

/-- `MatchCategoryData`: stats for one match category of one file. -/
structure MatchCategoryData where
  category : MatchCategoryType
  segments : Int := 0
  words : Int := 0
  characters : Int := 0
  placeables : Int := 0
  percent : PyFloat := .finite 0
  tm_words : Option Int := none
  mt_words : Option Int := none
  nt_words : Option Int := none
deriving DecidableEq

/-- `has_tm_mt_breakdown`: any of the three breakdown fields is set. -/
def MatchCategoryData.has_tm_mt_breakdown (d : MatchCategoryData) : Bool :=
  d.tm_words.isSome || d.mt_words.isSome || d.nt_words.isSome

/-- Python `max(0.0, min(100.0, p))` on a float, with Python comparison
semantics for the special values (`nan` comparisons are all false, so
`min(100.0, nan) = 100.0` and the clamp yields `100.0`). -/
def clampPercent : PyFloat → PyFloat
  | .finite q => .finite (qMax 0 (qMin 100 q))
  | .inf => .finite 100
  | .neginf => .finite 0
  | .nan => .finite 100

/-- `_validate_tm_mt_breakdown`: clear the breakdown for categories that
do not support it, else clamp each present field to be non-negative. -/
def MatchCategoryData.validate_tm_mt_breakdown (d : MatchCategoryData) : MatchCategoryData :=
  if ¬ d.category.supports_mt_breakdown then
    { d with tm_words := none, mt_words := none, nt_words := none }
  else
    { d with tm_words := d.tm_words.map (max 0),
             mt_words := d.mt_words.map (max 0),
             nt_words := d.nt_words.map (max 0) }

/-- `MatchCategoryData.__post_init__`: clamp counts to ≥ 0, clamp percent
into [0, 100], then validate the TM/MT breakdown when one is present. -/
def MatchCategoryData.postInit (d : MatchCategoryData) : MatchCategoryData :=
  let d := { d with segments := max 0 d.segments,
                    words := max 0 d.words,
                    characters := max 0 d.characters,
                    placeables := max 0 d.placeables,
                    percent := clampPercent d.percent }
  if d.has_tm_mt_breakdown then d.validate_tm_mt_breakdown else d

/-- `get_tm_words`: explicit `tm_words` verbatim when the breakdown is
present; else `int(self.words * tm_percentage / 100)` for the
100%-match category, where both operands of `/` are Python ints, so the
division goes through binary floating point (`intTrueDiv`) before the
`int(...)` truncation and can raise `OverflowError` on an astronomically
large product; else all words are TM. -/
def MatchCategoryData.get_tm_words (d : MatchCategoryData) (mt_percentage : Int) :
    Except PyError Int :=
  if d.has_tm_mt_breakdown ∧ d.tm_words.isSome then .ok (d.tm_words.getD 0)
  else if d.category.supports_mt_breakdown then
    let tm_percentage := 100 - mt_percentage
    (intTrueDiv (d.words * tm_percentage) 100).map ratTrunc
  else .ok d.words

/-- `get_mt_words`: explicit `mt_words` verbatim when the breakdown is
present; else `int(self.words * mt_percentage / 100)` for the 100%-match
category, with the same float true division as `get_tm_words`; else 0. -/
def MatchCategoryData.get_mt_words (d : MatchCategoryData) (mt_percentage : Int) :
    Except PyError Int :=
  if d.has_tm_mt_breakdown ∧ d.mt_words.isSome then .ok (d.mt_words.getD 0)
  else if d.category.supports_mt_breakdown then
    (intTrueDiv (d.words * mt_percentage) 100).map ratTrunc
  else .ok 0

/-- Result of `get_cost_calculation_words`. -/
structure CostWords where
  tm : Int
  mt : Int
  total : Int
deriving DecidableEq

/-- `get_cost_calculation_words`: the word breakdown used for costing
(the `tm` entry of the dict literal is evaluated first, so its exception
surfaces first). -/
def MatchCategoryData.get_cost_calculation_words (d : MatchCategoryData)
    (mt_percentage : Int) : Except PyError CostWords := do
  let tm ← d.get_tm_words mt_percentage
  let mt ← d.get_mt_words mt_percentage
  pure { tm := tm, mt := mt, total := d.words }

/-- `MatchCategoryData.to_dict` as written in the source is a mispasted
copy of `FileAnalysisData.to_dict`: its first expression reads
`self.filename`, an attribute `MatchCategoryData` does not have, so every
call raises `AttributeError` before producing anything. -/
def MatchCategoryData.to_dict (_ : MatchCategoryData) : Except PyError (List (String × String)) :=
  .error .attributeError

/-! ## File analysis data (`src/core/models/analysis.py`, continued) -/

/-- `FileAnalysisData`: analysis of one file. `categories` is a Python
dict keyed by category, modelled as an insertion-ordered association
list. -/
structure FileAnalysisData where
  filename : String
  source_language : String
  target_language : String
  categories : List (MatchCategoryType × MatchCategoryData) := []
  file_path : Option String := none
  analysis_date : Option String := none
  cat_tool : Option String := none
deriving DecidableEq

/-- A default-initialized `MatchCategoryData(category=c)` (post-init is a
no-op on the zero defaults but is applied for fidelity). -/
def defaultCategoryData (c : MatchCategoryType) : MatchCategoryData :=
  MatchCategoryData.postInit { category := c }

/-- `FileAnalysisData.__post_init__`: when no categories were given, fill
the map with all 8 standard categories, default-initialized. -/
def FileAnalysisData.postInit (fa : FileAnalysisData) : FileAnalysisData :=
  if fa.categories.isEmpty then
    { fa with categories :=
        MatchCategoryType.get_standard_categories.map (fun c => (c, defaultCategoryData c)) }
  else fa

/-- Construct a `FileAnalysisData` the way Python does: record fields,
then `__post_init__`. -/
def mkFileAnalysisData (filename source_language target_language : String)
    (categories : List (MatchCategoryType × MatchCategoryData) := []) : FileAnalysisData :=
  FileAnalysisData.postInit
    { filename, source_language, target_language, categories }

/-- `set_category_data`: re-stamp the key onto the value, then store. -/
def FileAnalysisData.set_category_data (fa : FileAnalysisData)
    (c : MatchCategoryType) (d : MatchCategoryData) : FileAnalysisData :=
  { fa with categories := dictInsert fa.categories c { d with category := c } }

/-- `get_total_words`: sum of words over all stored categories. -/
def FileAnalysisData.get_total_words (fa : FileAnalysisData) : Int :=
  (fa.categories.map (fun p => p.2.words)).sum

/-- `get_total_segments`: sum of segments over all stored categories. -/
def FileAnalysisData.get_total_segments (fa : FileAnalysisData) : Int :=
  (fa.categories.map (fun p => p.2.segments)).sum

/-- `is_valid`: non-empty filename and languages and positive words. -/
def FileAnalysisData.is_valid (fa : FileAnalysisData) : Bool :=
  fa.filename != "" && fa.source_language != "" && fa.target_language != ""
    && fa.get_total_words > 0

/-- One step of the `calculate_total_cost` loop: the cost this category
contributes (0 when it has no rate).  The word breakdown is computed for
every rated category, so its exception propagates out of the loop. -/
def categoryTotalCostStep (rates : List (MatchCategoryType × ℚ)) (mt_percentage : Int)
    (p : MatchCategoryType × MatchCategoryData) : Except PyError ℚ :=
  match rates.lookup p.1 with
  | none => .ok 0
  | some rate => do
    let word_breakdown ← p.2.get_cost_calculation_words mt_percentage
    if p.1.supports_mt_breakdown ∧ word_breakdown.mt > 0 then
      let tm_rate := rate
      let mt_rate := (rates.lookup .MT_MATCH).getD tm_rate
      pure (qAdd (qMul (Rat.divInt word_breakdown.tm 1) tm_rate)
        (qMul (Rat.divInt word_breakdown.mt 1) mt_rate))
    else pure (qMul (Rat.divInt p.2.words 1) rate)

/-- The exact (unquantized) Decimal total accumulated by
`calculate_total_cost` before its final `quantize`; the first category
whose breakdown raises aborts the loop. -/
def FileAnalysisData.rawTotalCost (fa : FileAnalysisData)
    (rates : List (MatchCategoryType × ℚ)) (mt_percentage : Int) : Except PyError ℚ :=
  fa.categories.foldl
    (fun acc p => acc.bind (fun a =>
      (categoryTotalCostStep rates mt_percentage p).map (fun c => qAdd a c)))
    (.ok 0)

/-- `calculate_total_cost`: sum per-category costs (TM/MT split for the
100% category when the split yields MT words, MT-rate falling back to the
category rate), then `quantize(Decimal('0.01'))` - default rounding, i.e.
half-even. -/
def FileAnalysisData.calculate_total_cost (fa : FileAnalysisData)
    (rates : List (MatchCategoryType × ℚ)) (mt_percentage : Int) : Except PyError ℚ :=
  (fa.rawTotalCost rates mt_percentage).map (quantizeHalfEven 2)

/-- The categories comprehension inside `FileAnalysisData.to_dict`: each
value is serialized with `MatchCategoryData.to_dict`, so the first
category raises. -/
def catsToDict : List (MatchCategoryType × MatchCategoryData) →
    Except PyError (List (String × List (String × String)))
  | [] => .ok []
  | p :: rest => do
    let dd ← p.2.to_dict
    let r ← catsToDict rest
    pure ((p.1.value, dd) :: r)

/-- `FileAnalysisData.to_dict`: scalar fields plus the serialized
category map (which always raises, see `MatchCategoryData.to_dict`).
Only the fallible part is represented in the result. -/
def FileAnalysisData.to_dict (fa : FileAnalysisData) :
    Except PyError (List (String × List (String × String))) :=
  catsToDict fa.categories

/-! ## Rates (`src/core/models/rate.py`) -/

/-- `Rate`: hierarchical rate record. `client_id = none` marks a general
rate. Identity/metadata fields that no modelled code reads are omitted. -/
structure Rate where
  translator_id : Int := 0
  client_id : Option Int := none
  language_pair_id : Int := 0
  match_category_id : Int := 0
  rate_per_word : ℚ := 0
  minimum_fee : ℚ := 0
  is_minimum_fee_enabled : Bool := false
deriving DecidableEq

/-- `Rate.__post_init__`: clamp the money fields to ≥ 0 and quantize the
per-word rate to 4 and the minimum fee to 2 decimal places (default
context rounding, half-even). -/
def Rate.postInit (r : Rate) : Rate :=
  { r with rate_per_word := quantizeHalfEven 4 (qMax 0 r.rate_per_word),
           minimum_fee := quantizeHalfEven 2 (qMax 0 r.minimum_fee) }

/-- `Rate.update_rate`: requantize the new per-word rate (4 dp) and, when
given, the new minimum fee (2 dp) and the enable flag. -/
def Rate.update_rate (r : Rate) (new_rate : ℚ) (minimum_fee : Option ℚ)
    (enable_minimum_fee : Option Bool) : Rate :=
  { r with rate_per_word := quantizeHalfEven 4 (qMax 0 new_rate),
           minimum_fee := match minimum_fee with
             | some m => quantizeHalfEven 2 (qMax 0 m)
             | none => r.minimum_fee,
           is_minimum_fee_enabled := enable_minimum_fee.getD r.is_minimum_fee_enabled }

/-- `Rate.calculate_cost`: `word_count * rate_per_word`, floored by the
rate's own minimum fee when enabled, else quantized to 2 dp. -/
def Rate.calculate_cost (r : Rate) (word_count : Int) : ℚ :=
  let base_cost := qMul (Rat.divInt word_count 1) r.rate_per_word
  if r.is_minimum_fee_enabled ∧ r.minimum_fee > base_cost then r.minimum_fee
  else quantizeHalfEven 2 base_cost

/-- The triple filter at the top of `resolve_rate_hierarchy`. -/
def rateMatchesTriple (translator_id language_pair_id match_category_id : Int)
    (r : Rate) : Bool :=
  r.translator_id == translator_id && r.language_pair_id == language_pair_id
    && r.match_category_id == match_category_id

/-- `RateCalculator.resolve_rate_hierarchy`: filter to the exact
(translator, pair, category) triple; if `client_id` is truthy return the
first rate with that client, else the first general (`client_id = None`)
rate, else `None`. -/
def resolve_rate_hierarchy (rates : List Rate)
    (translator_id language_pair_id match_category_id : Int)
    (client_id : Option Int) : Option Rate :=
  let applicable_rates :=
    rates.filter (rateMatchesTriple translator_id language_pair_id match_category_id)
  if applicable_rates.isEmpty then none
  else
    let fromClient : Option Rate :=
      if intOptionTruthy client_id then
        (applicable_rates.filter (fun r => r.client_id == client_id)).head?
      else none
    match fromClient with
    | some r => some r
    | none => (applicable_rates.filter (fun r => r.client_id == none)).head?

/-- One entry of the `categories` dict built by `calculate_project_cost`. -/
structure CategoryCalc where
  words : Int
  rate : ℚ
  cost : ℚ
deriving DecidableEq

/-- Result of `RateCalculator.calculate_project_cost`. -/
structure ProjectCostCalculation where
  categories : List (String × CategoryCalc)
  subtotal : ℚ
  minimum_fee : ℚ
  total : ℚ
  minimum_fee_applied : Bool
deriving DecidableEq

/-- The per-category loop of `calculate_project_cost`: skip non-positive
word counts and categories without a rate, else append the category line
and add `rate.calculate_cost(word_count)` to the running subtotal. -/
def projectCostStep (rates : List (MatchCategoryType × Rate))
    (acc : List (String × CategoryCalc) × ℚ) (cw : MatchCategoryType × Int) :
    List (String × CategoryCalc) × ℚ :=
  if cw.2 ≤ 0 then acc
  else
    match rates.lookup cw.1 with
    | none => acc
    | some rate =>
      let category_cost := rate.calculate_cost cw.2
      (acc.1 ++ [(cw.1.value, ⟨cw.2, rate.rate_per_word, category_cost⟩)],
       qAdd acc.2 category_cost)

/-- `RateCalculator.calculate_project_cost`: per-category costs and
subtotal, then the project minimum fee: applied exactly when the optional
fee is truthy and strictly exceeds the subtotal. -/
def calculate_project_cost (rates : List (MatchCategoryType × Rate))
    (word_counts : List (MatchCategoryType × Int))
    (minimum_fee : Option ℚ) : ProjectCostCalculation :=
  let built := word_counts.foldl (projectCostStep rates) ([], 0)
  let subtotal := built.2
  let feeApplies : Bool :=
    match minimum_fee with
    | none => false
    | some m => m != 0 && m > subtotal
  { categories := built.1,
    subtotal := subtotal,
    minimum_fee := minimum_fee.getD 0,
    total := if feeApplies then minimum_fee.getD 0 else subtotal,
    minimum_fee_applied := feeApplies }

/-! ## Cost breakdown (`src/core/services/calculation_service.py`) -/

/-- One entry of the `category_costs` dict of `_calculate_breakdown`:
either a TM/MT split entry (both sub-costs recorded separately) or a
standard entry. -/
inductive CategoryCostEntry where
  | mtSplit (total_words tm_words mt_words : Int) (tm_rate mt_rate : ℚ)
      (tm_cost mt_cost total_cost : ℚ) (segments : Int) (percent : PyFloat)
  | standard (words : Int) (rate : ℚ) (cost : ℚ) (segments : Int) (percent : PyFloat)
deriving DecidableEq

/-- `CostBreakdown` as returned by `_calculate_breakdown` (the minimum
fee is applied at project level, so it is zero and unapplied here). -/
structure CostBreakdown where
  category_costs : List (String × CategoryCostEntry)
  subtotal : ℚ
  minimum_fee : ℚ
  total_cost : ℚ
  minimum_fee_applied : Bool
  total_words : Int
  total_segments : Int
  mt_percentage : Int
deriving DecidableEq

/-- The body of the `_calculate_breakdown` loop for one category: `none`
when the category is skipped (no positive words or no rate), else the
dict entry together with the cost added to the subtotal.  The service
computes the TM/MT word breakdown only inside the
`supports_mt_breakdown` branch, so only that branch can raise. -/
def breakdownEntry (rates : List (MatchCategoryType × Rate)) (mt_percentage : Int)
    (p : MatchCategoryType × MatchCategoryData) :
    Except PyError (Option (String × CategoryCostEntry × ℚ)) :=
  if p.2.words ≤ 0 then .ok none
  else
    match rates.lookup p.1 with
    | none => .ok none
    | some rate =>
      let standardEntry : Option (String × CategoryCostEntry × ℚ) :=
        let cost := qMul (Rat.divInt p.2.words 1) rate.rate_per_word
        some (p.1.value,
          .standard p.2.words rate.rate_per_word cost p.2.segments p.2.percent,
          cost)
      if p.1.supports_mt_breakdown then
        (p.2.get_cost_calculation_words mt_percentage).map (fun word_breakdown =>
          if word_breakdown.mt > 0 then
            let tm_rate := rate.rate_per_word
            let mt_rate := ((rates.lookup .MT_MATCH).getD rate).rate_per_word
            let tm_cost := qMul (Rat.divInt word_breakdown.tm 1) tm_rate
            let mt_cost := qMul (Rat.divInt word_breakdown.mt 1) mt_rate
            let total_cost := qAdd tm_cost mt_cost
            some (p.1.value,
              .mtSplit p.2.words word_breakdown.tm word_breakdown.mt tm_rate mt_rate
                tm_cost mt_cost total_cost p.2.segments p.2.percent,
              total_cost)
          else standardEntry)
      else .ok standardEntry

/-- `CalculationService._calculate_breakdown`: walk the analysis
categories, building the per-category cost entries and the subtotal; the
unused `client_id` parameter is dropped, and the first category whose
TM/MT breakdown raises aborts the walk. -/
def calculate_breakdown (analysis : FileAnalysisData)
    (rates : List (MatchCategoryType × Rate)) (mt_percentage : Int) :
    Except PyError CostBreakdown :=
  (analysis.categories.foldl
    (fun (acc : Except PyError (List (String × CategoryCostEntry) × ℚ)) p =>
      acc.bind (fun a =>
        (breakdownEntry rates mt_percentage p).map (fun o =>
          match o with
          | none => a
          | some (k, e, c) => (a.1 ++ [(k, e)], qAdd a.2 c))))
    (Except.ok ([], (0 : ℚ)))).map (fun built =>
  { category_costs := built.1,
    subtotal := built.2,
    minimum_fee := 0,
    total_cost := built.2,
    minimum_fee_applied := false,
    total_words := analysis.get_total_words,
    total_segments := analysis.get_total_segments,
    mt_percentage := mt_percentage })

/-! ## Column detection (`src/parsers/column_detector.py`) -/

/-- `ColumnMapping`: detected format plus the column-index tables. Field
names inside each table are the Python dict keys. -/
structure ColumnMapping where
  format_type : String
  categories : List (MatchCategoryType × List (String × Nat))
  fixed_columns : List (String × Nat)
  total_columns : List (String × Nat)
deriving DecidableEq

/-- `has_characters_column`. -/
def ColumnMapping.has_characters_column (m : ColumnMapping) : Bool :=
  m.format_type == "with_characters"

/-- The stripped physical column headers of the second header line. -/
def columnHeadersOf (second_line : String) : List String :=
  (pySplit second_line ";").map pyTrim

/-- Number of physical columns of the second header line. -/
def numColumns (second_line : String) : Nat :=
  (columnHeadersOf second_line).length

/-- Number of column headers of the second line containing `Characters`. -/
def charactersCount (second_line : String) : Nat :=
  ((columnHeadersOf second_line).filter (fun h => strContains h "Characters")).length

/-- `detect_format` on a pair of header lines: `with_characters` iff the
second line has at least 45 columns or at least 6 `Characters` headers. -/
def detectFormatCore (second_line : String) : String :=
  if numColumns second_line ≥ 45 ∨ charactersCount second_line ≥ 6 then
    "with_characters"
  else "without_characters"

/-- `TradosColumnDetector.detect_format`: fewer than two header lines
default to `without_characters`; otherwise decide from the second line. -/
def detect_format (header_lines : List String) : String :=
  match header_lines with
  | _ :: second_line :: _ => detectFormatCore second_line
  | _ => "without_characters"

/-- `extract_categories_from_header`: split the first line on `;;;`,
strip the leftover semicolons, drop empties and the `Total`/`File`
tokens. -/
def extract_categories_from_header (header_line : String) : List String :=
  (pySplit header_line ";;;").filterMap (fun part =>
    if pyTrim part = "" then none
    else
      let category_name := pyTrim (pyReplace part ";" "")
      if category_name ≠ "" ∧ category_name ≠ "Total" ∧ category_name ≠ "File" then
        some category_name
      else none)

/-- `_map_category_name_to_type`: the fixed Trados name table. -/
def map_category_name_to_type : String → Option MatchCategoryType
  | "Context Match" => some .CONTEXT_MATCH
  | "Repetitions" => some .REPETITIONS
  | "100%" => some .EXACT_MATCH
  | "95% - 99%" => some .HIGH_FUZZY
  | "85% - 94%" => some .MEDIUM_HIGH_FUZZY
  | "75% - 84%" => some .MEDIUM_FUZZY
  | "50% - 74%" => some .LOW_FUZZY
  | "No Match" => some .NO_MATCH
  | _ => none

/-- The inner field loop of `_create_column_mapping`: map each field of
one recognized category to the next column while columns remain (the
index does not advance once columns are exhausted). Returns the field
table and the final column index. -/
def assignFields : List String → Nat → Nat → List (String × Nat) × Nat
  | [], i, _ => ([], i)
  | f :: fs, i, n =>
    if i < n then
      let rest := assignFields fs (i + 1) n
      ((f, i) :: rest.1, rest.2)
    else assignFields fs i n

/-- The outer category loop of `_create_column_mapping`: recognized names
consume columns via `assignFields`; unrecognized names advance the
column index by a full category width without mapping anything. -/
def mapCategories (category_fields : List String) (fields_per_category : Nat)
    (numCols : Nat) : List String → Nat →
    List (MatchCategoryType × List (String × Nat)) × Nat
  | [], col_index => ([], col_index)
  | name :: rest, col_index =>
    match map_category_name_to_type name with
    | some category_type =>
      let assigned := assignFields category_fields col_index numCols
      let tail := mapCategories category_fields fields_per_category numCols rest assigned.2
      ((category_type, assigned.1) :: tail.1, tail.2)
    | none =>
      mapCategories category_fields fields_per_category numCols rest
        (col_index + fields_per_category)

/-- The fixed-column scan of `_create_column_mapping`: look at the first
5 headers for `File`, `Tagging Errors` and `Chars/Word` (dict assignment,
so a later hit for a key overwrites an earlier one), then default `File`
to column 0 when absent. -/
def mapFixedColumns (column_headers : List String) : List (String × Nat) :=
  let scanned := ((column_headers.take 5).enum.foldl
    (fun acc (hi : Nat × String) =>
      let header_lower := pyToLower hi.2
      if strContains header_lower "file" then dictInsert acc "File" hi.1
      else if strContains header_lower "tagging" ∧ strContains header_lower "error" then
        dictInsert acc "Tagging Errors" hi.1
      else if strContains header_lower "chars" ∧ strContains header_lower "word" then
        dictInsert acc "Chars/Word" hi.1
      else acc)
    ([] : List (String × Nat)))
  if (scanned.lookup "File").isSome then scanned
  else dictInsert scanned "File" 0

/-- The trailing total-section mapping of `_create_column_mapping`:
optimistically assign the remaining columns when at least 3 remain. -/
def mapTotalColumns (format_type : String) (numCols col_index : Nat) :
    List (String × Nat) :=
  let remaining : Int := (numCols : Int) - (col_index : Int)
  if remaining ≥ 3 then
    let base := [("segments", col_index), ("words", col_index + 1)]
    if format_type = "with_characters" then
      if remaining ≥ 4 then
        base ++ [("placeables", col_index + 2), ("characters", col_index + 3)]
      else base
    else
      base ++ [("placeables", col_index + 2)] ++
        (if remaining ≥ 4 then [("characters", col_index + 3)] else [])
  else []

/-- `_create_column_mapping` for a detected format, the extracted
category names and the stripped column headers: category columns start at
index 3, after the fixed columns. -/
def create_column_mapping (format_type : String) (category_names : List String)
    (column_headers : List String) : ColumnMapping :=
  let category_fields :=
    if format_type = "with_characters" then
      ["segments", "words", "characters", "placeables", "percent"]
    else ["segments", "words", "placeables", "percent"]
  let fields_per_category : Nat := if format_type = "with_characters" then 5 else 4
  let fixed_columns := mapFixedColumns column_headers
  let built := mapCategories category_fields fields_per_category
    column_headers.length category_names 3
  { format_type := format_type,
    categories := built.1,
    fixed_columns := fixed_columns,
    total_columns := mapTotalColumns format_type column_headers.length built.2 }

/-- `map_columns` for exactly two header lines. -/
def mapColumnsCore (line1 line2 : String) : ColumnMapping :=
  create_column_mapping (detect_format [line1, line2])
    (extract_categories_from_header line1) (columnHeadersOf line2)

/-- `TradosColumnDetector.map_columns`: requires at least two header
lines (`ValueError` otherwise, modelled as `none`). -/
def map_columns (header_lines : List String) : Option ColumnMapping :=
  match header_lines with
  | l1 :: l2 :: _ => some (mapColumnsCore l1 l2)
  | _ => none

/-- Every column index recorded anywhere in a mapping, in the order
`validate_mapping` collects them. -/
def ColumnMapping.allIndices (m : ColumnMapping) : List Nat :=
  m.fixed_columns.map (·.2) ++ m.total_columns.map (·.2) ++
    (m.categories.map (fun p => p.2.map (·.2))).flatten

/-- `validate_mapping`: a `File` fixed column must exist, at least one
category must be mapped, and every recorded index must be inside
`[0, total_columns)` (indices are naturals, so only the upper bound is a
real check). -/
def validate_mapping (m : ColumnMapping) (total_columns : Nat) : Bool :=
  if (m.fixed_columns.lookup "File").isNone then false
  else if m.categories.isEmpty then false
  else m.allIndices.all (fun i => i < total_columns)

/-! ## Trados CSV parsing (`src/parsers/trados_csv_parser.py`) -/

/-- `_safe_int_conversion`: out-of-range index or empty cell yields 0;
a cell containing `.` goes through `int(float(value))` - a parse failure
or nan raises `ValueError`, which is caught (yielding 0), but an
overflowing float raises `OverflowError`, which the `except
(ValueError, TypeError)` clause does not catch; otherwise `int(value)`,
with parse failures caught. -/
def safe_int_conversion (row_data : List String) (col_index : Int) :
    Except PyError Int :=
  if col_index < 0 ∨ (row_data.length : Int) ≤ col_index then .ok 0
  else
    let value := pyTrim (row_data.getD col_index.toNat "")
    if value = "" then .ok 0
    else if strContainsChar value '.' then
      match pyFloatOfString value with
      | none => .ok 0
      | some f =>
        match pyFloatToInt f with
        | .ok n => .ok n
        | .error .valueError => .ok 0
        | .error .typeError => .ok 0
        | .error e => .error e
    else
      match pyIntOfString value with
      | some n => .ok n
      | none => .ok 0

/-- `_safe_float_conversion`: out-of-range index or empty cell yields
0.0; otherwise `float(value)` with parse failures caught. Total: every
exception `float(str)` can raise is caught. -/
def safe_float_conversion (row_data : List String) (col_index : Int) : PyFloat :=
  if col_index < 0 ∨ (row_data.length : Int) ≤ col_index then .finite 0
  else
    let value := pyTrim (row_data.getD col_index.toNat "")
    if value = "" then .finite 0
    else
      match pyFloatOfString value with
      | some f => f
      | none => .finite 0

/-- One pattern attempt of `parse_language_pair_from_filename`: split on
the pattern, look at the last piece for a `src>tgt` pair with both codes
2-5 characters long. -/
def tryLanguagePattern (filename pattern : String) : Option (String × String) :=
  if strContains filename pattern then
    let parts := pySplit filename pattern
    if parts.length ≥ 2 then
      let lang_part := parts.getLastD ""
      if strContains lang_part ">" then
        let langs := pySplit lang_part ">"
        if langs.length = 2 then
          let source := pyToLower (pyTrim (langs.getD 0 ""))
          let target := pyToLower (pyTrim (langs.getD 1 ""))
          if 2 ≤ source.data.length ∧ source.data.length ≤ 5 ∧
              2 ≤ target.data.length ∧ target.data.length ≤ 5 then
            some (source, target)
          else none
        else none
      else none
    else none
  else none

/-- `BaseParser.parse_language_pair_from_filename`: try the patterns
`" | "`, `"_"`, `"-"`, `" "` in order; `("", "")` when none succeeds. -/
def parse_language_pair_from_filename (filename : String) : String × String :=
  (([" | ", "_", "-", " "].findSome? (tryLanguagePattern filename)).getD ("", ""))

/-- `_extract_file_info`: filename and language pair from the `File`
cell, parsing `"name | src>tgt"` and falling back to filename
heuristics. Returns (filename, source_language, target_language). -/
def extract_file_info (row_data : List String) (m : ColumnMapping) :
    String × String × String :=
  let file_col_index := (m.fixed_columns.lookup "File").getD 0
  let file_cell :=
    if file_col_index < row_data.length then
      pyStrip (row_data.getD file_col_index "") [' ', '"']
    else "unknown_file"
  let parsed :=
    if strContains file_cell " | " then
      let parts := pySplit file_cell " | "
      let filename := pyTrim (parts.getD 0 "")
      if parts.length > 1 ∧ strContains (parts.getD 1 "") ">" then
        let lang_pair := pyTrim (parts.getD 1 "")
        let lang_parts := pySplit lang_pair ">"
        if lang_parts.length = 2 then
          (filename, pyTrim (lang_parts.getD 0 ""), pyTrim (lang_parts.getD 1 ""))
        else (filename, "", "")
      else (filename, "", "")
    else (file_cell, "", "")
  if parsed.2.1 = "" ∨ parsed.2.2 = "" then
    let fallback := parse_language_pair_from_filename parsed.1
    if fallback.1 ≠ "" ∧ fallback.2 ≠ "" then (parsed.1, fallback.1, fallback.2)
    else parsed
  else parsed

/-- Column index for a field of a category mapping: the Python code uses
`category_mapping.get(field, -1)`. -/
def fieldIndex (category_mapping : List (String × Nat)) (field : String) : Int :=
  match category_mapping.lookup field with
  | some i => (i : Int)
  | none => -1

/-- `_parse_category_data`: read segments/words/placeables/percent (and
characters when the format has them) through the safe conversions, then
construct the category data (running `__post_init__`). The category is a
placeholder overridden by the caller. -/
def parse_category_data (row_data : List String)
    (category_mapping : List (String × Nat)) (has_characters : Bool) :
    Except PyError MatchCategoryData := do
  let segments ← safe_int_conversion row_data (fieldIndex category_mapping "segments")
  let words ← safe_int_conversion row_data (fieldIndex category_mapping "words")
  let placeables ← safe_int_conversion row_data (fieldIndex category_mapping "placeables")
  let percent := safe_float_conversion row_data (fieldIndex category_mapping "percent")
  let characters ←
    if has_characters then
      safe_int_conversion row_data (fieldIndex category_mapping "characters")
    else pure 0
  pure (MatchCategoryData.postInit
    { category := .NO_MATCH, segments, words, characters, placeables, percent })

/-- Cell splitting of one data row: split on `;`, strip spaces and
double quotes from each cell. -/
def splitDataRow (row : String) : List String :=
  (pySplit row ";").map (fun col => pyStrip col [' ', '"'])

/-- `_parse_data_rows`: take the first data row, re-validate the mapping
against its cell count (returning no analysis when validation rejects),
then extract the file info and every mapped category, and keep the
result only when it is valid. -/
def parse_data_rows (data_rows : List String) (m : ColumnMapping) :
    Except PyError (Option FileAnalysisData) := do
  match data_rows with
  | [] => pure none
  | first_row :: _ =>
    let row_data := splitDataRow first_row
    if ¬ validate_mapping m row_data.length then pure none
    else
      let info := extract_file_info row_data m
      let base := mkFileAnalysisData info.1 info.2.1 info.2.2
      let analysis ← m.categories.foldlM
        (fun (a : FileAnalysisData) (p : MatchCategoryType × List (String × Nat)) => do
          let category_data ← parse_category_data row_data p.2 m.has_characters_column
          pure (a.set_category_data p.1 category_data))
        base
      if analysis.is_valid then pure (some analysis) else pure none

/-! ## Specification-side definitions and concrete instances used by the
theorems -/

/-- The subtotal as the spec describes it: the sum, over the categories
with positive word count and a resolved rate, of that category's cost. -/
def specSubtotal (rates : List (MatchCategoryType × Rate))
    (word_counts : List (MatchCategoryType × Int)) : ℚ :=
  (word_counts.map (fun cw =>
    if cw.2 > 0 then
      match rates.lookup cw.1 with
      | some rate => rate.calculate_cost cw.2
      | none => 0
    else 0)).sum

/-- A stored rate whose `client_id` is the integer 0, for the query
triple (1, 1, 1). -/
def rateClientZero : Rate :=
  Rate.postInit { translator_id := 1, client_id := some 0,
                  language_pair_id := 1, match_category_id := 1,
                  rate_per_word := Rat.divInt 1 10 }

/-- Exact-match category stats with 100 words and no explicit
breakdown. -/
def exactHundred : MatchCategoryData :=
  MatchCategoryData.postInit { category := .EXACT_MATCH, words := 100 }

/-- Exact-match category stats with `18014398509481990` words (à la
`2^54 + 6`) and no explicit breakdown: the word count on which the
float true division inside the TM/MT split rounds both half-integer
quotients upward, so the computed split sums to `words + 2`. -/
def exactBig : MatchCategoryData :=
  MatchCategoryData.postInit { category := .EXACT_MATCH, words := 18014398509481990 }

/-- A 0.05 EUR/word rate, used as the 100%-category rate. -/
def rateFiveCents : Rate :=
  Rate.postInit { translator_id := 1, language_pair_id := 1,
                  match_category_id := 3, rate_per_word := Rat.divInt 1 20 }

/-- A 0.02 EUR/word rate, used as the MT-Match rate. -/
def rateTwoCents : Rate :=
  Rate.postInit { translator_id := 1, language_pair_id := 1,
                  match_category_id := 9, rate_per_word := Rat.divInt 1 50 }

/-- An analysis holding only the 100-word exact-match category. -/
def analysisExactHundred : FileAnalysisData :=
  mkFileAnalysisData "file.docx" "en" "de" [(.EXACT_MATCH, exactHundred)]

/-- A 0.10 EUR/word rate for the No Match category. -/
def rateTenCents : Rate :=
  Rate.postInit { translator_id := 1, language_pair_id := 1,
                  match_category_id := 8, rate_per_word := Rat.divInt 1 10 }

/-- No-match category stats with a single word (for the quantization
counterexample: 1 word at 0.025 EUR). -/
def noMatchOneWord : MatchCategoryData :=
  MatchCategoryData.postInit { category := .NO_MATCH, words := 1 }

/-- An analysis holding only the one-word No Match category. -/
def analysisOneWord : FileAnalysisData :=
  mkFileAnalysisData "file.docx" "en" "de" [(.NO_MATCH, noMatchOneWord)]

/-- A cell whose trimmed value contains a dot and parses to an
overflowing float: the only shape of input on which the int-path safe
conversion raises (an uncaught `OverflowError` from `int(float(...))`). -/
def cellOverflows (cell : String) : Bool :=
  let value := pyTrim cell
  strContainsChar value '.' &&
    (match pyFloatOfString value with
     | some .inf => true
     | some .neginf => true
     | _ => false)

/-- A mapping with no category mapped at all: `validate_mapping` rejects
it for any column count. -/
def emptyCategoriesMapping : ColumnMapping :=
  { format_type := "without_characters", categories := [],
    fixed_columns := [("File", 0)], total_columns := [] }

/-! ## Helper lemmas -/

/-- The denominator of a rational is a nonzero integer. -/
theorem den_int_nz (a : ℚ) : (a.den : Int) ≠ 0 := by
  exact_mod_cast a.den_nz

/-- `qAdd` is rational addition. -/
theorem qAdd_eq (a b : ℚ) : qAdd a b = a + b := by
  rw [qAdd]
  conv_rhs => rw [← Rat.num_divInt_den a, ← Rat.num_divInt_den b]
  rw [Rat.divInt_add_divInt _ _ (den_int_nz a) (den_int_nz b)]

/-- `qSub` is rational subtraction. -/
theorem qSub_eq (a b : ℚ) : qSub a b = a - b := by
  rw [qSub]
  conv_rhs => rw [← Rat.num_divInt_den a, ← Rat.num_divInt_den b]
  rw [Rat.divInt_sub_divInt _ _ (den_int_nz a) (den_int_nz b)]

/-- `qMul` is rational multiplication. -/
theorem qMul_eq (a b : ℚ) : qMul a b = a * b := by
  rw [qMul]
  conv_rhs => rw [← Rat.num_divInt_den a, ← Rat.num_divInt_den b]
  rw [Rat.divInt_mul_divInt']

/-- `qDiv` is rational division. -/
theorem qDiv_eq (a b : ℚ) : qDiv a b = a / b := by
  rw [qDiv, div_eq_mul_inv, Rat.inv_def']
  conv_rhs => rw [← Rat.num_divInt_den a]
  rw [Rat.divInt_mul_divInt']

/-- `qNeg` is rational negation. -/
theorem qNeg_eq (a : ℚ) : qNeg a = -a := by
  rw [qNeg, Rat.neg_def]

/-- `qMax` is the rational maximum. -/
theorem qMax_eq (a b : ℚ) : qMax a b = max a b := by
  by_cases h : a ≤ b <;> simp [qMax, max_def, h]

/-- `qMin` is the rational minimum. -/
theorem qMin_eq (a b : ℚ) : qMin a b = min a b := by
  by_cases h : a ≤ b <;> simp [qMin, min_def, h]

/-- `qFloor` is the rational floor. -/
theorem qFloor_eq (q : ℚ) : qFloor q = ⌊q⌋ := by
  rw [Rat.floor_def, qFloor]
  exact Int.fdiv_eq_ediv _ (by exact_mod_cast Nat.zero_le q.den)

/-- `ratPow10` is `10 ^ k`. -/
theorem ratPow10_eq (k : ℕ) : ratPow10 k = (10 : ℚ) ^ k := by
  rw [ratPow10, Rat.divInt_one]
  have : Int.ofNat (Nat.pow 10 k) = ((10 : ℤ) ^ k) := by
    rw [Int.ofNat_eq_natCast, Nat.pow_eq]
    push_cast
    ring
  rw [this]
  push_cast
  ring

/-- `ratTrunc` agrees with the floor on non-negative rationals. -/
theorem ratTrunc_eq_floor {q : ℚ} (h : 0 ≤ q) : ratTrunc q = ⌊q⌋ := by
  rw [ratTrunc, Rat.floor_def]
  exact Int.tdiv_eq_ediv (Rat.num_nonneg.mpr h) (by exact_mod_cast Nat.zero_le q.den)

/-- `roundHalfEven` written with the Mathlib floor and `Even`. -/
theorem roundHalfEven_eq (x : ℚ) :
    roundHalfEven x =
      if x - ⌊x⌋ < 1 / 2 then ⌊x⌋
      else if 1 / 2 < x - ⌊x⌋ then ⌊x⌋ + 1
      else if Even ⌊x⌋ then ⌊x⌋ else ⌊x⌋ + 1 := by
  rw [roundHalfEven, qFloor_eq]
  have h2 : Rat.divInt 1 2 = (1 / 2 : ℚ) := by
    rw [Rat.divInt_eq_div]
    norm_num
  have hsub : qSub x (Rat.divInt ⌊x⌋ 1) = x - ⌊x⌋ := by
    rw [qSub_eq, Rat.divInt_one]
  rw [hsub, h2]
  rcases lt_trichotomy (x - (⌊x⌋ : ℚ)) (1 / 2) with h | h | h
  · simp only [if_pos h]
  · have hA : ¬(x - (⌊x⌋ : ℚ) < 1 / 2) := by
      rw [h]
      exact lt_irrefl _
    have hB : ¬((1 : ℚ) / 2 < x - (⌊x⌋ : ℚ)) := by
      rw [h]
      exact lt_irrefl _
    simp only [if_neg hA, if_neg hB]
    by_cases he : Even ⌊x⌋
    · rw [if_pos (Int.even_iff.mp he), if_pos he]
    · rw [if_neg (fun hc => he (Int.even_iff.mpr hc)), if_neg he]
  · have hA : ¬(x - (⌊x⌋ : ℚ) < 1 / 2) := not_lt.mpr h.le
    simp only [if_neg hA, if_pos h]

/-- `quantizeHalfEven` written with Mathlib operations. -/
theorem quantizeHalfEven_eq (d : ℕ) (q : ℚ) :
    quantizeHalfEven d q = (roundHalfEven (q * 10 ^ d) : ℚ) / 10 ^ d := by
  rw [quantizeHalfEven, qDiv_eq, Rat.divInt_one, qMul_eq, ratPow10_eq]

/-- The half-even rounding moves a rational by at most 1/2. -/
theorem roundHalfEven_close (x : ℚ) : |(roundHalfEven x : ℚ) - x| ≤ 1 / 2 := by
  have h1 : (⌊x⌋ : ℚ) ≤ x := Int.floor_le x
  have h2 : x < ⌊x⌋ + 1 := Int.lt_floor_add_one x
  rw [roundHalfEven_eq]
  split_ifs with hf hg he
  · rw [abs_le]
    constructor <;> linarith
  · rw [not_lt] at hf
    rw [abs_le]
    constructor <;> push_cast <;> linarith
  · rw [not_lt] at hf hg
    rw [abs_le]
    constructor <;> linarith
  · rw [not_lt] at hf hg
    rw [abs_le]
    constructor <;> push_cast <;> linarith

/-- Quantization to `d` decimal places moves a value by at most half a
unit in the last place. -/
theorem quantizeHalfEven_close (d : ℕ) (q : ℚ) :
    |quantizeHalfEven d q - q| ≤ 1 / (2 * 10 ^ d) := by
  have hp : (0 : ℚ) < 10 ^ d := by positivity
  rw [quantizeHalfEven_eq]
  have key : (roundHalfEven (q * 10 ^ d) : ℚ) / 10 ^ d - q =
      ((roundHalfEven (q * 10 ^ d) : ℚ) - q * 10 ^ d) / 10 ^ d := by
    field_simp
    ring
  rw [key, abs_div, abs_of_pos hp]
  rw [show (1 : ℚ) / (2 * 10 ^ d) = (1 / 2) / 10 ^ d by ring]
  exact div_le_div_of_nonneg_right (roundHalfEven_close (q * 10 ^ d)) hp.le

/-- The quantized value is an integer number of units of `10 ^ (-d)`. -/
theorem quantizeHalfEven_isMultiple (d : ℕ) (q : ℚ) :
    ∃ n : ℤ, quantizeHalfEven d q = (n : ℚ) / 10 ^ d :=
  ⟨roundHalfEven (qMul q (ratPow10 d)), by
    rw [quantizeHalfEven_eq, qMul_eq, ratPow10_eq]⟩

/-- Half-even rounding of a non-negative value is non-negative. -/
theorem roundHalfEven_nonneg {x : ℚ} (h : 0 ≤ x) : 0 ≤ roundHalfEven x := by
  have hf : 0 ≤ ⌊x⌋ := Int.floor_nonneg.mpr h
  rw [roundHalfEven_eq]
  split_ifs <;> omega

/-- Quantization of a non-negative value is non-negative. -/
theorem quantizeHalfEven_nonneg {d : ℕ} {q : ℚ} (h : 0 ≤ q) :
    0 ≤ quantizeHalfEven d q := by
  rw [quantizeHalfEven_eq]
  apply div_nonneg _ (by positivity)
  exact_mod_cast roundHalfEven_nonneg (by positivity)

/-- `qAbs` is the rational absolute value. -/
theorem qAbs_eq (q : ℚ) : qAbs q = |q| := by
  rw [qAbs]
  by_cases h : q < 0
  · rw [if_pos h, qNeg_eq, abs_of_neg h]
  · rw [if_neg h, abs_of_nonneg (not_lt.mp h)]

/-- `qPow2` is the integer power `2 ^ k` of `ℚ`. -/
theorem qPow2_eq (k : Int) : qPow2 k = (2 : ℚ) ^ k := by
  rw [qPow2]
  by_cases h : 0 ≤ k
  · rw [if_pos h, Rat.divInt_one]
    have h2 : Int.ofNat (Nat.pow 2 k.toNat) = ((2 : ℤ) ^ k.toNat) := by
      rw [Int.ofNat_eq_natCast, Nat.pow_eq]
      push_cast
      ring
    rw [h2]
    push_cast
    rw [← zpow_natCast (2 : ℚ) k.toNat, Int.toNat_of_nonneg h]
  · rw [if_neg h, Rat.divInt_eq_div]
    have h2 : Int.ofNat (Nat.pow 2 (-k).toNat) = ((2 : ℤ) ^ (-k).toNat) := by
      rw [Int.ofNat_eq_natCast, Nat.pow_eq]
      push_cast
      ring
    rw [h2]
    push_cast
    rw [← zpow_natCast (2 : ℚ) (-k).toNat, Int.toNat_of_nonneg (by omega : (0:ℤ) ≤ -k)]
    rw [one_div, ← zpow_neg, neg_neg]

/-- `qPow2` is positive. -/
theorem qPow2_pos (k : Int) : 0 < qPow2 k := by
  rw [qPow2_eq]
  exact zpow_pos (by norm_num) k

/-- The floor of `m / 100` over ℚ is the Euclidean quotient. -/
theorem floor_intCast_div_hundred (m : Int) :
    ⌊((m : ℚ)) / 100⌋ = Int.ediv m 100 := by
  have h100 : (0:ℚ) < 100 := by norm_num
  have hd : 100 * Int.ediv m 100 + Int.emod m 100 = m := Int.ediv_add_emod m 100
  have h0e : 0 ≤ Int.emod m 100 := Int.emod_nonneg m (by norm_num)
  have h1e : Int.emod m 100 < 100 := Int.emod_lt_of_pos m (by norm_num)
  have hle : ((Int.ediv m 100 : ℤ) : ℚ) ≤ (m : ℚ) / 100 := by
    rw [le_div_iff h100]
    exact_mod_cast (by omega : Int.ediv m 100 * 100 ≤ m)
  have hlt : (m : ℚ) / 100 < ((Int.ediv m 100 : ℤ) : ℚ) + 1 := by
    rw [div_lt_iff h100]
    have : m < (Int.ediv m 100 + 1) * 100 := by omega
    calc (m:ℚ) < (((Int.ediv m 100 + 1) * 100 : ℤ) : ℚ) := by exact_mod_cast this
      _ = (((Int.ediv m 100 : ℤ) : ℚ) + 1) * 100 := by push_cast; ring
  rw [Int.floor_eq_iff]
  exact ⟨hle, hlt⟩

/-- The overflow threshold is positive. -/
theorem floatOverflowThreshold_pos : 0 < floatOverflowThreshold := by
  rw [floatOverflowThreshold, Rat.divInt_one, Int.ofNat_eq_natCast]
  have h1 : 0 < Nat.pow 2 1024 - Nat.pow 2 970 := by
    have h2 : Nat.pow 2 970 < Nat.pow 2 1024 :=
      Nat.pow_lt_pow_right (by norm_num) (by norm_num)
    omega
  exact_mod_cast h1

/-- `2 ^ 47` is far below the double overflow threshold. -/
theorem two_pow_47_lt_threshold : (2:ℚ) ^ (47:ℕ) < floatOverflowThreshold := by
  have hle : Nat.pow 2 970 ≤ Nat.pow 2 1024 :=
    Nat.pow_le_pow_right (by norm_num) (by norm_num)
  rw [floatOverflowThreshold, Rat.divInt_one, Int.ofNat_eq_natCast]
  rw [show ((((Nat.pow 2 1024 - Nat.pow 2 970 : ℕ) : ℤ) : ℚ)) =
      ((Nat.pow 2 1024 : ℕ) : ℚ) - ((Nat.pow 2 970 : ℕ) : ℚ) by push_cast [hle]; ring]
  have e1 : ((Nat.pow 2 1024 : ℕ) : ℚ) = (2:ℚ) ^ (1024:ℕ) := by
    rw [Nat.pow_eq]
    push_cast
    ring
  have e2 : ((Nat.pow 2 970 : ℕ) : ℚ) = (2:ℚ) ^ (970:ℕ) := by
    rw [Nat.pow_eq]
    push_cast
    ring
  rw [e1, e2]
  have p1 : (2:ℚ) ^ (47:ℕ) < (2:ℚ) ^ (970:ℕ) := by
    exact pow_lt_pow_right₀ (by norm_num) (by norm_num)
  have p2 : (2:ℚ) ^ (970:ℕ) + (2:ℚ) ^ (970:ℕ) ≤ (2:ℚ) ^ (1024:ℕ) := by
    have h971 : (2:ℚ) ^ (970:ℕ) + (2:ℚ) ^ (970:ℕ) = (2:ℚ) ^ (971:ℕ) := by ring
    rw [h971]
    exact pow_le_pow_right₀ (by norm_num) (by norm_num)
  linarith

/-- Half-even rounding of an integer is the integer itself. -/
theorem roundHalfEven_intCast (n : ℤ) : roundHalfEven ((n : ℚ)) = n := by
  rw [roundHalfEven_eq, Int.floor_intCast]
  norm_num

/-- Correctness of the binade binary search: under its invariants it
returns the exponent of the binade containing `a`. -/
theorem findEGo_correct (fuel : Nat) :
    ∀ (lo hi : Int) (a : ℚ), qPow2 lo ≤ a → a < qPow2 hi → lo < hi →
      hi - lo ≤ 2 ^ fuel →
      qPow2 (findEGo fuel lo hi a) ≤ a ∧ a < qPow2 (findEGo fuel lo hi a + 1) := by
  induction fuel with
  | zero =>
    intro lo hi a hlo hhi hlt hw
    have hpow : (2 : Int) ^ (0 : ℕ) = 1 := pow_zero 2
    have hhi1 : hi = lo + 1 := by omega
    show qPow2 lo ≤ a ∧ a < qPow2 (lo + 1)
    exact ⟨hlo, hhi1 ▸ hhi⟩
  | succ n ih =>
    intro lo hi a hlo hhi hlt hw
    have hpow : (2 : Int) ^ (n + 1) = 2 ^ n * 2 := pow_succ 2 n
    have hdiv : 2 * Int.ediv (lo + hi) 2 + Int.emod (lo + hi) 2 = lo + hi :=
      Int.ediv_add_emod (lo + hi) 2
    have hm0 : 0 ≤ Int.emod (lo + hi) 2 := Int.emod_nonneg _ (by norm_num)
    have hm2 : Int.emod (lo + hi) 2 < 2 := Int.emod_lt_of_pos _ (by norm_num)
    by_cases hle : hi ≤ lo + 1
    · have hunf : findEGo (n + 1) lo hi a = lo := by
        show (if hi ≤ lo + 1 then lo else
          if a < qPow2 (Int.ediv (lo + hi) 2) then findEGo n lo (Int.ediv (lo + hi) 2) a
          else findEGo n (Int.ediv (lo + hi) 2) hi a) = lo
        rw [if_pos hle]
      rw [hunf]
      have hhi1 : hi = lo + 1 := by omega
      exact ⟨hlo, hhi1 ▸ hhi⟩
    · by_cases hc : a < qPow2 (Int.ediv (lo + hi) 2)
      · have hunf : findEGo (n + 1) lo hi a = findEGo n lo (Int.ediv (lo + hi) 2) a := by
          show (if hi ≤ lo + 1 then lo else
            if a < qPow2 (Int.ediv (lo + hi) 2) then findEGo n lo (Int.ediv (lo + hi) 2) a
            else findEGo n (Int.ediv (lo + hi) 2) hi a) = _
          rw [if_neg hle, if_pos hc]
        rw [hunf]
        exact ih lo (Int.ediv (lo + hi) 2) a hlo hc (by omega) (by omega)
      · have hunf : findEGo (n + 1) lo hi a = findEGo n (Int.ediv (lo + hi) 2) hi a := by
          show (if hi ≤ lo + 1 then lo else
            if a < qPow2 (Int.ediv (lo + hi) 2) then findEGo n lo (Int.ediv (lo + hi) 2) a
            else findEGo n (Int.ediv (lo + hi) 2) hi a) = _
          rw [if_neg hle, if_neg hc]
        rw [hunf]
        exact ih (Int.ediv (lo + hi) 2) hi a (not_lt.mp hc) hhi (by omega) (by omega)

/-- `findE` finds the binade of a rational in the normal double range. -/
theorem findE_spec (a : ℚ) (h1 : qPow2 (-1022) ≤ a) (h2 : a < qPow2 1024) :
    qPow2 (findE a) ≤ a ∧ a < qPow2 (findE a + 1) :=
  findEGo_correct 12 (-1022) 1024 a h1 h2 (by norm_num) (by norm_num)

/-- On a positive value at least `2^(-1022)`, `roundToDouble` rounds on
the grid of the value's binade. -/
theorem roundToDouble_pos_eq (q : ℚ) (h0 : 0 < q) (hsub : ¬ q < qPow2 (-1022)) :
    roundToDouble q =
      (roundHalfEven (q * (2:ℚ) ^ (52 - findE q)) : ℚ) * (2:ℚ) ^ (findE q - 52) := by
  have habs : qAbs q = q := by
    rw [qAbs, if_neg (not_lt.mpr h0.le)]
  rw [roundToDouble, if_neg h0.ne', if_neg (not_lt.mpr h0.le), habs]
  rw [roundToDoublePos, if_neg hsub]
  rw [qMul_eq, qMul_eq, Rat.divInt_one, qPow2_eq, qPow2_eq]

/-- On the float-exact range `0 ≤ N ≤ 2^53`, Python's `int(N / 100)`
equals the exact floor of `N / 100`: the correctly rounded double
quotient cannot cross an integer boundary, because the quotient is
below `2^47`, so the rounding error is below the `1/100` gap between
the quotient and the nearest integers. -/
theorem trueDiv100_floor (N : Int) (h0 : 0 ≤ N) (h1 : N ≤ 2 ^ 53) :
    (intTrueDiv N 100).map ratTrunc = .ok ⌊((N : ℚ)) / 100⌋ := by
  have h100 : (0:ℚ) < 100 := by norm_num
  have hq : Rat.divInt N 100 = (N : ℚ) / 100 := Rat.divInt_eq_div N 100
  have ha0 : (0:ℚ) ≤ (N : ℚ) / 100 := div_nonneg (by exact_mod_cast h0) (by norm_num)
  have habs : qAbs (Rat.divInt N 100) = (N : ℚ) / 100 := by
    rw [hq, qAbs, if_neg (not_lt.mpr ha0)]
  have hN53 : (N : ℚ) ≤ (2:ℚ) ^ (53:ℕ) := by exact_mod_cast h1
  have haub : (N : ℚ) / 100 < (2:ℚ) ^ (47:ℕ) := by
    rw [div_lt_iff h100]
    calc (N:ℚ) ≤ (2:ℚ) ^ (53:ℕ) := hN53
      _ < (2:ℚ) ^ (47:ℕ) * 100 := by norm_num
  have hthr : (N : ℚ) / 100 < floatOverflowThreshold :=
    lt_trans haub two_pow_47_lt_threshold
  rw [intTrueDiv, if_neg (by norm_num : ¬ (100:Int) = 0), habs,
    if_neg (not_le.mpr hthr), hq]
  by_cases hz : N = 0
  · subst hz
    have hdiv0 : ((0:Int) : ℚ) / 100 = 0 := by norm_num
    rw [hdiv0, roundToDouble, if_pos rfl]
    have ht0 : ratTrunc 0 = 0 := by decide
    simp only [Except.map, ht0]
    norm_num
  · have hNpos : 0 < N := lt_of_le_of_ne h0 (Ne.symm hz)
    have halo : (1:ℚ)/100 ≤ (N : ℚ) / 100 := by
      gcongr
      have h1N : (1:ℤ) ≤ N := hNpos
      exact_mod_cast h1N
    have hapos : (0:ℚ) < (N : ℚ) / 100 := lt_of_lt_of_le (by norm_num) halo
    have hsub : ¬ (N : ℚ) / 100 < qPow2 (-1022) := by
      rw [qPow2_eq]
      push_neg
      calc (2:ℚ) ^ (-1022 : ℤ) ≤ (2:ℚ) ^ (-7 : ℤ) :=
            zpow_le_zpow_right₀ (by norm_num) (by norm_num)
        _ = 1/128 := by norm_num
        _ ≤ 1/100 := by norm_num
        _ ≤ (N : ℚ) / 100 := halo
    have hup : (N : ℚ) / 100 < qPow2 1024 := by
      rw [qPow2_eq]
      calc (N : ℚ) / 100 < (2:ℚ) ^ (47:ℕ) := haub
        _ ≤ (2:ℚ) ^ (1024:ℕ) := pow_le_pow_right₀ (by norm_num) (by norm_num)
        _ = (2:ℚ) ^ ((1024:ℕ) : ℤ) := by rw [zpow_natCast]
        _ = (2:ℚ) ^ (1024 : ℤ) := by norm_num
    obtain ⟨hEl, hEu⟩ := findE_spec ((N : ℚ) / 100) (not_lt.mp hsub) hup
    have hE46 : findE ((N : ℚ) / 100) ≤ 46 := by
      by_contra hcon
      push_neg at hcon
      have hmono : qPow2 47 ≤ qPow2 (findE ((N : ℚ) / 100)) := by
        rw [qPow2_eq, qPow2_eq]
        exact zpow_le_zpow_right₀ (by norm_num) (by omega)
      have h47 : qPow2 47 = (2:ℚ) ^ (47:ℕ) := by
        rw [qPow2_eq]
        rw [show ((47:ℤ)) = ((47:ℕ) : ℤ) by norm_num, zpow_natCast]
      rw [h47] at hmono
      linarith
    have hrtd := roundToDouble_pos_eq ((N : ℚ) / 100) hapos hsub
    have hgrid : (0:ℚ) < (2:ℚ) ^ (findE ((N : ℚ) / 100) - 52) := zpow_pos (by norm_num) _
    have hgrid2 : (0:ℚ) < (2:ℚ) ^ (52 - findE ((N : ℚ) / 100)) := zpow_pos (by norm_num) _
    have hx : (N : ℚ) / 100 * (2:ℚ) ^ (52 - findE ((N : ℚ) / 100)) *
        (2:ℚ) ^ (findE ((N : ℚ) / 100) - 52) = (N : ℚ) / 100 := by
      rw [mul_assoc, ← zpow_add₀ (by norm_num : (2:ℚ) ≠ 0)]
      norm_num
    have hclose : |roundToDouble ((N : ℚ) / 100) - (N : ℚ) / 100| ≤
        (2:ℚ) ^ (findE ((N : ℚ) / 100) - 53) := by
      rw [hrtd]
      have h1c : |(roundHalfEven ((N : ℚ) / 100 * (2:ℚ) ^ (52 - findE ((N : ℚ) / 100))) : ℚ) -
          (N : ℚ) / 100 * (2:ℚ) ^ (52 - findE ((N : ℚ) / 100))| ≤ 1/2 :=
        roundHalfEven_close _
      have key : (roundHalfEven ((N : ℚ) / 100 * (2:ℚ) ^ (52 - findE ((N : ℚ) / 100))) : ℚ) *
          (2:ℚ) ^ (findE ((N : ℚ) / 100) - 52) - (N : ℚ) / 100 =
          ((roundHalfEven ((N : ℚ) / 100 * (2:ℚ) ^ (52 - findE ((N : ℚ) / 100))) : ℚ) -
            (N : ℚ) / 100 * (2:ℚ) ^ (52 - findE ((N : ℚ) / 100))) *
            (2:ℚ) ^ (findE ((N : ℚ) / 100) - 52) := by
        rw [sub_mul, hx]
      rw [key, abs_mul, abs_of_pos hgrid]
      have h2c : (2:ℚ) ^ (findE ((N : ℚ) / 100) - 53) =
          (1/2) * (2:ℚ) ^ (findE ((N : ℚ) / 100) - 52) := by
        rw [show findE ((N : ℚ) / 100) - 53 = -1 + (findE ((N : ℚ) / 100) - 52) by ring,
          zpow_add₀ (by norm_num : (2:ℚ) ≠ 0)]
        norm_num
      rw [h2c]
      exact mul_le_mul_of_nonneg_right h1c hgrid.le
    have hdelta : (2:ℚ) ^ (findE ((N : ℚ) / 100) - 53) ≤ 1/128 := by
      calc (2:ℚ) ^ (findE ((N : ℚ) / 100) - 53) ≤ (2:ℚ) ^ (-7 : ℤ) :=
            zpow_le_zpow_right₀ (by norm_num) (by omega)
        _ = 1/128 := by norm_num
    have hRnn : 0 ≤ roundToDouble ((N : ℚ) / 100) := by
      rw [hrtd]
      apply mul_nonneg _ hgrid.le
      exact_mod_cast roundHalfEven_nonneg (mul_nonneg ha0 hgrid2.le)
    have hfl : ⌊roundToDouble ((N : ℚ) / 100)⌋ = ⌊(N : ℚ) / 100⌋ := by
      obtain ⟨hc1, hc2⟩ := abs_le.mp hclose
      by_cases hdvd : (100:Int) ∣ N
      · obtain ⟨k, hk⟩ := hdvd
        have hak : (N : ℚ) / 100 = (k:ℚ) := by
          rw [hk]
          push_cast
          rw [mul_comm]
          rw [mul_div_assoc]
          norm_num
        have hnn52 : (0:ℤ) ≤ 52 - findE ((N : ℚ) / 100) := by omega
        have hx_int : (N : ℚ) / 100 * (2:ℚ) ^ (52 - findE ((N : ℚ) / 100)) =
            ((k * 2 ^ (52 - findE ((N : ℚ) / 100)).toNat : ℤ) : ℚ) := by
          set s : ℕ := (52 - findE ((N : ℚ) / 100)).toNat with hs
          have hsz : ((s : ℕ) : ℤ) = 52 - findE ((N : ℚ) / 100) := Int.toNat_of_nonneg hnn52
          rw [← hsz, zpow_natCast, hak]
          push_cast
          ring
        have hR_eq : roundToDouble ((N : ℚ) / 100) = (N : ℚ) / 100 := by
          rw [hrtd, hx_int, roundHalfEven_intCast, ← hx_int, hx]
        rw [hR_eq]
      · have hdN : 100 * Int.ediv N 100 + Int.emod N 100 = N := Int.ediv_add_emod N 100
        have hnnN : 0 ≤ Int.emod N 100 := Int.emod_nonneg N (by norm_num)
        have hltN : Int.emod N 100 < 100 := Int.emod_lt_of_pos N (by norm_num)
        have hr0 : 1 ≤ Int.emod N 100 := by
          have hne : Int.emod N 100 ≠ 0 := by
            intro hc
            exact hdvd (Int.dvd_of_emod_eq_zero hc)
          omega
        have hr99 : Int.emod N 100 ≤ 99 := by omega
        have hsplit : (N:ℚ) = ((Int.ediv N 100 : ℤ):ℚ) * 100 + ((Int.emod N 100 : ℤ):ℚ) := by
          exact_mod_cast (by omega : N = Int.ediv N 100 * 100 + Int.emod N 100)
        have hmlo : (1 : ℚ) ≤ ((Int.emod N 100 : ℤ):ℚ) := by exact_mod_cast hr0
        have hmhi : ((Int.emod N 100 : ℤ):ℚ) ≤ (99 : ℚ) := by exact_mod_cast hr99
        have hblo : ((Int.ediv N 100 : ℤ) : ℚ) + 1/100 ≤ (N : ℚ) / 100 := by
          linarith
        have hbhi : (N : ℚ) / 100 ≤ ((Int.ediv N 100 : ℤ) : ℚ) + 99/100 := by
          linarith
        rw [floor_intCast_div_hundred N, Int.floor_eq_iff]
        constructor
        · linarith
        · linarith
    rw [show Except.map ratTrunc (Except.ok (roundToDouble ((N : ℚ) / 100))) =
      Except.ok (ratTrunc (roundToDouble ((N : ℚ) / 100))) from rfl]
    rw [ratTrunc_eq_floor hRnn, hfl]

/-- `Rate.calculate_cost` is non-negative for a normalized rate and a
non-negative word count. -/
theorem calculate_cost_nonneg {r : Rate} {wc : Int}
    (hrate : 0 ≤ r.rate_per_word) (hfee : 0 ≤ r.minimum_fee) (hwc : 0 ≤ wc) :
    0 ≤ r.calculate_cost wc := by
  rw [Rate.calculate_cost]
  have hbase : (0 : ℚ) ≤ qMul (Rat.divInt wc 1) r.rate_per_word := by
    rw [qMul_eq, Rat.divInt_one]
    exact mul_nonneg (by exact_mod_cast hwc) hrate
  split_ifs
  · exact hfee
  · exact quantizeHalfEven_nonneg hbase

/-- The running subtotal of the `calculate_project_cost` fold equals the
starting value plus the specification-side subtotal. -/
theorem projectCost_foldl_subtotal (rates : List (MatchCategoryType × Rate)) :
    ∀ (wcs : List (MatchCategoryType × Int))
      (l0 : List (String × CategoryCalc)) (s0 : ℚ),
      (wcs.foldl (projectCostStep rates) (l0, s0)).2 = s0 + specSubtotal rates wcs := by
  intro wcs
  induction wcs with
  | nil =>
    intro l0 s0
    simp [specSubtotal]
  | cons cw t ih =>
    intro l0 s0
    rw [List.foldl_cons]
    have hspec : specSubtotal rates (cw :: t) =
        (if cw.2 > 0 then
          match rates.lookup cw.1 with
          | some rate => rate.calculate_cost cw.2
          | none => 0
        else 0) + specSubtotal rates t := by
      rw [specSubtotal, List.map_cons, List.sum_cons, specSubtotal]
    rw [hspec, projectCostStep]
    by_cases hle : cw.2 ≤ 0
    · rw [if_pos hle, ih, if_neg (by omega)]
      ring
    · rw [if_neg hle, if_pos (by omega)]
      cases hlk : rates.lookup cw.1 with
      | none =>
        rw [ih]
        ring
      | some rate =>
        rw [ih, qAdd_eq]
        ring

/-- A successful association-list lookup exhibits a member pair. -/
theorem lookup_mem {α β : Type} [BEq α] [LawfulBEq α] :
    ∀ {l : List (α × β)} {k : α} {v : β}, l.lookup k = some v → (k, v) ∈ l := by
  intro l
  induction l with
  | nil =>
    intro k v h
    simp [List.lookup] at h
  | cons p t ih =>
    intro k v h
    cases p with
    | mk a b =>
      rw [List.lookup] at h
      by_cases hb : (k == a) = true
      · rw [hb] at h
        simp only [Option.some.injEq] at h
        subst h
        have := eq_of_beq hb
        subst this
        exact List.mem_cons_self _ _
      · rw [Bool.not_eq_true] at hb
        rw [hb] at h
        exact List.mem_cons_of_mem _ (ih h)

/-- The specification-side subtotal is non-negative when every rate in
the table is normalized. -/
theorem specSubtotal_nonneg (rates : List (MatchCategoryType × Rate))
    (wcs : List (MatchCategoryType × Int))
    (hr : ∀ p ∈ rates, 0 ≤ p.2.rate_per_word ∧ 0 ≤ p.2.minimum_fee) :
    0 ≤ specSubtotal rates wcs := by
  induction wcs with
  | nil => simp [specSubtotal]
  | cons cw t ih =>
    rw [specSubtotal, List.map_cons, List.sum_cons]
    apply add_nonneg _ ih
    split_ifs with hpos
    · cases hlk : rates.lookup cw.1 with
      | none => exact le_refl 0
      | some rate =>
        have hmem := lookup_mem hlk
        obtain ⟨h1, h2⟩ := hr _ hmem
        exact calculate_cost_nonneg h1 h2 (by omega)
    · exact le_refl 0

/-- The head of a filtered list is the first element satisfying the
predicate. -/
theorem filter_head?_eq_find? {α : Type} (p : α → Bool) (l : List α) :
    (l.filter p).head? = l.find? p := by
  induction l with
  | nil => rfl
  | cons a t ih =>
    by_cases h : p a <;> simp [List.filter_cons, List.find?_cons, h, ih]

/-- `resolve_rate_hierarchy` characterized through `find?`: the first
client-specific match when the client id is truthy, else the first
general rate, else `none`. -/
theorem resolve_rate_hierarchy_eq (rates : List Rate)
    (t l m : Int) (cid : Option Int) :
    resolve_rate_hierarchy rates t l m cid =
      match (if intOptionTruthy cid then
              (rates.filter (rateMatchesTriple t l m)).find? (fun r => r.client_id == cid)
            else none) with
      | some r => some r
      | none => (rates.filter (rateMatchesTriple t l m)).find? (fun r => r.client_id == none) := by
  unfold resolve_rate_hierarchy
  by_cases hemp : (rates.filter (rateMatchesTriple t l m)).isEmpty
  · have hnil : rates.filter (rateMatchesTriple t l m) = [] := by
      simpa using hemp
    simp [hnil]
  · simp only [hemp, Bool.false_eq_true, if_false, filter_head?_eq_find?]

/-- Whatever `resolve_rate_hierarchy` returns was selected either as a
client-specific rate (truthy client id, equal `client_id`) or as a
general rate (`client_id = None`). -/
theorem resolve_client_id_of_some (rates : List Rate) (t l m : Int)
    (cid : Option Int) (r : Rate)
    (h : resolve_rate_hierarchy rates t l m cid = some r) :
    (intOptionTruthy cid = true ∧ r.client_id = cid) ∨ r.client_id = none := by
  rw [resolve_rate_hierarchy_eq] at h
  by_cases htr : intOptionTruthy cid
  · simp only [htr, if_true] at h
    cases hf : (rates.filter (rateMatchesTriple t l m)).find? (fun x => x.client_id == cid) with
    | some r2 =>
      rw [hf] at h
      have h2 : some r2 = some r := h
      cases h2
      left
      exact ⟨htr, by simpa using List.find?_some hf⟩
    | none =>
      rw [hf] at h
      have h2 : (rates.filter (rateMatchesTriple t l m)).find? (fun x => x.client_id == none)
          = some r := h
      right
      simpa using List.find?_some h2
  · simp only [htr, Bool.false_eq_true, if_false] at h
    have h2 : (rates.filter (rateMatchesTriple t l m)).find? (fun x => x.client_id == none)
        = some r := h
    right
    simpa using List.find?_some h2

/-- C1 counterexample: a rate whose `client_id` is literally 0 matches
the query triple (1, 1, 1) exactly and is queried with that very
`client_id = 0`, yet resolution returns nothing (the claim as stated
says this rate must be returned): the code tests the truthiness of
`client_id`, and 0 is falsy. -/
theorem c1_counterexample :
    rateClientZero.translator_id = 1 ∧ rateClientZero.language_pair_id = 1 ∧
    rateClientZero.match_category_id = 1 ∧ rateClientZero.client_id = some 0 ∧
    resolve_rate_hierarchy [rateClientZero] 1 1 1 (some 0) = none := by
  decide

/-- C1 (amended): rate resolution first restricts to rates whose
(translator_id, language_pair_id, match_category_id) equal the query
exactly; then, if a truthy (non-None, nonzero) client_id is given and a
rate with that exact client_id is in the restricted set, it returns the
first such rate; else, if a rate with client_id = None is in the
restricted set, it returns the first such general rate (for any
client_id passed, including None and 0); else it returns None. -/
theorem c1_rate_resolution_hierarchy (rates : List Rate) (t l m : Int)
    (cid : Option Int) :
    resolve_rate_hierarchy rates t l m cid =
      match (if intOptionTruthy cid then
              (rates.filter (rateMatchesTriple t l m)).find? (fun r => r.client_id == cid)
            else none) with
      | some r => some r
      | none => (rates.filter (rateMatchesTriple t l m)).find? (fun r => r.client_id == none) :=
  resolve_rate_hierarchy_eq rates t l m cid

/-- C10: because the client-specific branch tests truthiness, resolution
with client_id = 0 behaves exactly like resolution with client_id =
None, and a stored rate whose client_id equals 0 is never returned. -/
theorem c10_client_zero_query (rates : List Rate) (t l m : Int) :
    resolve_rate_hierarchy rates t l m (some 0) = resolve_rate_hierarchy rates t l m none ∧
    ∀ (cid : Option Int) (r : Rate),
      resolve_rate_hierarchy rates t l m cid = some r → r.client_id ≠ some 0 := by
  refine ⟨?_, ?_⟩
  · rw [resolve_rate_hierarchy_eq, resolve_rate_hierarchy_eq]
    simp [intOptionTruthy]
  · intro cid r h
    rcases resolve_client_id_of_some rates t l m cid r h with ⟨htr, hc⟩ | hc
    · cases cid with
      | none => simp [intOptionTruthy] at htr
      | some x =>
        have hx : x ≠ 0 := by simpa [intOptionTruthy] using htr
        rw [hc]
        simpa using hx
    · simp [hc]

/-- The TM-side split equation on the float-exact range: for the
exact-match category without an explicit `tm_words` and
`words * 100 ≤ 2^53`, `get_tm_words` is the exact floor of
`words * (100 - mt_percentage) / 100`. -/
theorem get_tm_words_split (d : MatchCategoryData) (p : Int)
    (hcat : d.category = .EXACT_MATCH) (htm : d.tm_words = none)
    (hw : 0 ≤ d.words) (hp0 : 0 ≤ p) (hp1 : p ≤ 100)
    (hb : d.words * 100 ≤ 2 ^ 53) :
    d.get_tm_words p = .ok ⌊((d.words * (100 - p) : Int) : ℚ) / 100⌋ := by
  rw [MatchCategoryData.get_tm_words]
  rw [if_neg (by simp [htm])]
  rw [if_pos (by simp [MatchCategoryType.supports_mt_breakdown, hcat])]
  exact trueDiv100_floor (d.words * (100 - p)) (mul_nonneg hw (by omega))
    (le_trans (mul_le_mul_of_nonneg_left (by omega : (100:Int) - p ≤ 100) hw) hb)

/-- The MT-side split equation on the float-exact range: for the
exact-match category without an explicit `mt_words` and
`words * 100 ≤ 2^53`, `get_mt_words` is the exact floor of
`words * mt_percentage / 100`. -/
theorem get_mt_words_split (d : MatchCategoryData) (p : Int)
    (hcat : d.category = .EXACT_MATCH) (hmt : d.mt_words = none)
    (hw : 0 ≤ d.words) (hp0 : 0 ≤ p) (hp1 : p ≤ 100)
    (hb : d.words * 100 ≤ 2 ^ 53) :
    d.get_mt_words p = .ok ⌊((d.words * p : Int) : ℚ) / 100⌋ := by
  rw [MatchCategoryData.get_mt_words]
  rw [if_neg (by simp [hmt])]
  rw [if_pos (by simp [MatchCategoryType.supports_mt_breakdown, hcat])]
  exact trueDiv100_floor (d.words * p) (mul_nonneg hw hp0)
    (le_trans (mul_le_mul_of_nonneg_left hp1 hw) hb)

/-- C2 counterexample: at `words = 18014398509481990` and
`mt_percentage = 50` the exact quotient `words * 50 / 100` is the odd
integer `9007199254740995`, which exceeds `2^53`, where doubles are
spaced two apart; the float true division therefore rounds it to the
even-mantissa neighbour `9007199254740996` before `int()` truncates.
Both halves of the split come out as `9007199254740996`: the computed
`mt` differs from the exact floor the claim asserts, and
`tm + mt = words + 2 > words`, refuting the claim's invariant that
`tm + mt ≤ words`, never more. -/
theorem c2_counterexample :
    exactBig.get_tm_words 50 = .ok 9007199254740996 ∧
    exactBig.get_mt_words 50 = .ok 9007199254740996 ∧
    exactBig.get_mt_words 50 ≠ .ok ⌊((exactBig.words * 50 : Int) : ℚ) / 100⌋ ∧
    9007199254740996 + 9007199254740996 > exactBig.words := by
  have hfl : ⌊((exactBig.words * 50 : Int) : ℚ) / 100⌋ =
      Int.ediv (exactBig.words * 50) 100 := floor_intCast_div_hundred _
  refine ⟨by decide, by decide, ?_, by decide⟩
  rw [hfl]
  decide

/-- C2 (amended): the TM/MT word split returns explicit
`tm_words`/`mt_words` verbatim when present; otherwise the
100%-exact-match category computes `int(words*(100-mt_percentage)/100)`
and `int(words*mt_percentage/100)` with Python's int/int true division,
which rounds the exact quotient to the nearest double before
truncating; on the float-exact range `words * 100 ≤ 2^53` this equals
the exact floors, and then `tm + mt ≤ words` with `mt = 0` at
`mt_percentage = 0` and `tm = 0` at `mt_percentage = 100`; every other
category returns `tm = words`, `mt = 0`. -/
theorem c2_tm_mt_split (d : MatchCategoryData) (p : Int) :
    (∀ t, d.tm_words = some t → d.get_tm_words p = .ok t) ∧
    (∀ m, d.mt_words = some m → d.get_mt_words p = .ok m) ∧
    (d.category = .EXACT_MATCH → d.tm_words = none →
     0 ≤ d.words → 0 ≤ p → p ≤ 100 → d.words * 100 ≤ 2 ^ 53 →
      d.get_tm_words p = .ok ⌊((d.words * (100 - p) : Int) : ℚ) / 100⌋) ∧
    (d.category = .EXACT_MATCH → d.mt_words = none →
     0 ≤ d.words → 0 ≤ p → p ≤ 100 → d.words * 100 ≤ 2 ^ 53 →
      d.get_mt_words p = .ok ⌊((d.words * p : Int) : ℚ) / 100⌋) ∧
    (d.category ≠ .EXACT_MATCH → d.tm_words = none → d.get_tm_words p = .ok d.words) ∧
    (d.category ≠ .EXACT_MATCH → d.mt_words = none → d.get_mt_words p = .ok 0) ∧
    (d.category = .EXACT_MATCH → d.tm_words = none → d.mt_words = none →
     0 ≤ d.words → 0 ≤ p → p ≤ 100 → d.words * 100 ≤ 2 ^ 53 →
      ∀ tm mt, d.get_tm_words p = .ok tm → d.get_mt_words p = .ok mt →
        tm + mt ≤ d.words ∧ (p = 0 → mt = 0) ∧ (p = 100 → tm = 0)) := by
  refine ⟨?_, ?_, ?_, ?_, ?_, ?_, ?_⟩
  · intro t ht
    rw [MatchCategoryData.get_tm_words,
      if_pos ⟨by simp [MatchCategoryData.has_tm_mt_breakdown, ht], by simp [ht]⟩]
    simp [ht]
  · intro m hm
    rw [MatchCategoryData.get_mt_words,
      if_pos ⟨by simp [MatchCategoryData.has_tm_mt_breakdown, hm], by simp [hm]⟩]
    simp [hm]
  · intro hcat htm hw hp0 hp1 hb
    exact get_tm_words_split d p hcat htm hw hp0 hp1 hb
  · intro hcat hmt hw hp0 hp1 hb
    exact get_mt_words_split d p hcat hmt hw hp0 hp1 hb
  · intro hcat htm
    rw [MatchCategoryData.get_tm_words, if_neg (by simp [htm])]
    rw [if_neg (by simp [MatchCategoryType.supports_mt_breakdown, hcat])]
  · intro hcat hmt
    rw [MatchCategoryData.get_mt_words, if_neg (by simp [hmt])]
    rw [if_neg (by simp [MatchCategoryType.supports_mt_breakdown, hcat])]
  · intro hcat htm hmt hw hp0 hp1 hb tm mt htm2 hmt2
    rw [get_tm_words_split d p hcat htm hw hp0 hp1 hb] at htm2
    rw [get_mt_words_split d p hcat hmt hw hp0 hp1 hb] at hmt2
    have htmv : tm = ⌊((d.words * (100 - p) : Int) : ℚ) / 100⌋ := (Except.ok.inj htm2).symm
    have hmtv : mt = ⌊((d.words * p : Int) : ℚ) / 100⌋ := (Except.ok.inj hmt2).symm
    subst htmv
    subst hmtv
    refine ⟨?_, ?_, ?_⟩
    · have ha : (⌊((d.words * (100 - p) : Int) : ℚ) / 100⌋ : ℚ) ≤
          ((d.words * (100 - p) : Int) : ℚ) / 100 := Int.floor_le _
      have hb2 : (⌊((d.words * p : Int) : ℚ) / 100⌋ : ℚ) ≤
          ((d.words * p : Int) : ℚ) / 100 := Int.floor_le _
      have hsum : ((d.words * (100 - p) : Int) : ℚ) / 100 +
          ((d.words * p : Int) : ℚ) / 100 = (d.words : ℚ) := by
        push_cast
        ring
      have hcast : ((⌊((d.words * (100 - p) : Int) : ℚ) / 100⌋ +
          ⌊((d.words * p : Int) : ℚ) / 100⌋ : ℤ) : ℚ) =
          (⌊((d.words * (100 - p) : Int) : ℚ) / 100⌋ : ℚ) +
          (⌊((d.words * p : Int) : ℚ) / 100⌋ : ℚ) := by
        push_cast
        ring
      have : ((⌊((d.words * (100 - p) : Int) : ℚ) / 100⌋ +
          ⌊((d.words * p : Int) : ℚ) / 100⌋ : ℤ) : ℚ) ≤ (d.words : ℚ) := by
        rw [hcast]
        linarith
      exact_mod_cast this
    · intro hp
      subst hp
      norm_num
    · intro hp
      subst hp
      norm_num

/-- C2 witness: the exact-match category with 100 words and no explicit
breakdown (on the float-exact range, `100 * 100 ≤ 2^53`) splits to
30 + 70 ≤ 100 words at 70% MT, to 0 MT words at 0%, and to 0 TM words
at 100%. -/
theorem c2_witness :
    exactHundred.get_tm_words 70 = .ok 30 ∧
    exactHundred.get_mt_words 70 = .ok 70 ∧
    (30 + 70 : Int) ≤ exactHundred.words ∧
    exactHundred.get_mt_words 0 = .ok 0 ∧ exactHundred.get_tm_words 100 = .ok 0 := by
  refine ⟨by decide, by decide, ?_, ?_, ?_⟩
  · exact ((c2_tm_mt_split exactHundred 70).2.2.2.2.2.2 (by decide) (by decide) (by decide)
      (by decide) (by decide) (by decide) (by decide) 30 70 (by decide) (by decide)).1
  · decide
  · decide

/-- C4: project cost calculation sums the per-category cost of every
category with positive word count and a resolved rate into the subtotal;
when a minimum fee is configured and strictly exceeds the subtotal, the
total is the minimum fee and the applied flag is set; otherwise
(including equality) the total is the subtotal and the flag is clear. -/
theorem c4_project_minimum_fee (rates : List (MatchCategoryType × Rate))
    (word_counts : List (MatchCategoryType × Int)) (minimum_fee : Option ℚ)
    (hr : ∀ p ∈ rates, 0 ≤ p.2.rate_per_word ∧ 0 ≤ p.2.minimum_fee) :
    (calculate_project_cost rates word_counts minimum_fee).subtotal =
      specSubtotal rates word_counts ∧
    0 ≤ (calculate_project_cost rates word_counts minimum_fee).subtotal ∧
    (∀ m, minimum_fee = some m →
      m > (calculate_project_cost rates word_counts minimum_fee).subtotal →
      (calculate_project_cost rates word_counts minimum_fee).total = m ∧
      (calculate_project_cost rates word_counts minimum_fee).minimum_fee_applied = true) ∧
    (∀ m, minimum_fee = some m →
      m ≤ (calculate_project_cost rates word_counts minimum_fee).subtotal →
      (calculate_project_cost rates word_counts minimum_fee).total =
        (calculate_project_cost rates word_counts minimum_fee).subtotal ∧
      (calculate_project_cost rates word_counts minimum_fee).minimum_fee_applied = false) ∧
    (minimum_fee = none →
      (calculate_project_cost rates word_counts minimum_fee).total =
        (calculate_project_cost rates word_counts minimum_fee).subtotal ∧
      (calculate_project_cost rates word_counts minimum_fee).minimum_fee_applied = false) := by
  have hsub : (calculate_project_cost rates word_counts minimum_fee).subtotal =
      specSubtotal rates word_counts := by
    have h : (calculate_project_cost rates word_counts minimum_fee).subtotal =
        (word_counts.foldl (projectCostStep rates) ([], 0)).2 := rfl
    rw [h, projectCost_foldl_subtotal rates word_counts [] 0, zero_add]
  have hnn : 0 ≤ (calculate_project_cost rates word_counts minimum_fee).subtotal := by
    rw [hsub]
    exact specSubtotal_nonneg rates word_counts hr
  refine ⟨hsub, hnn, ?_, ?_, ?_⟩
  · intro m hm hgt
    subst hm
    have hm0 : m ≠ 0 := by
      intro h0
      rw [h0] at hgt
      exact absurd hnn (not_le.mpr hgt)
    have happ : (match (some m : Option ℚ) with
        | none => false
        | some mm => mm != 0 &&
            decide (mm > (word_counts.foldl (projectCostStep rates) ([], 0)).2)) = true := by
      simp only [bne_iff_ne, ne_eq, decide_eq_true_eq, Bool.and_eq_true]
      exact ⟨by simpa using hm0, by
        have : (calculate_project_cost rates word_counts (some m)).subtotal =
            (word_counts.foldl (projectCostStep rates) ([], 0)).2 := rfl
        rw [this] at hgt
        simpa using hgt⟩
    constructor
    · show (if _ then (some m : Option ℚ).getD 0 else _) = m
      rw [if_pos (by simpa using happ)]
      rfl
    · show (match (some m : Option ℚ) with
        | none => false
        | some mm => mm != 0 && decide (mm > _)) = true
      exact happ
  · intro m hm hle
    subst hm
    have hS : (calculate_project_cost rates word_counts (some m)).subtotal =
        (word_counts.foldl (projectCostStep rates) ([], 0)).2 := rfl
    have hd : decide (m > (word_counts.foldl (projectCostStep rates) ([], 0)).2) = false :=
      decide_eq_false (by rw [← hS]; exact not_lt.mpr hle)
    have happ : (match (some m : Option ℚ) with
        | none => false
        | some mm => mm != 0 &&
            decide (mm > (word_counts.foldl (projectCostStep rates) ([], 0)).2)) = false := by
      show (m != 0 && _) = false
      rw [hd, Bool.and_false]
    constructor
    · show (if _ then _ else (word_counts.foldl (projectCostStep rates) ([], 0)).2) = _
      rw [if_neg (by rw [happ]; simp)]
      rfl
    · exact happ
  · intro hm
    subst hm
    exact ⟨rfl, rfl⟩

/-- C4 witness: 400 words at 0.10 EUR give subtotal 40.00; an enabled
minimum fee of 50.00 raises the total to 50.00 with the flag set; 600
words give subtotal 60.00, and the same fee leaves the total at 60.00
with the flag clear. -/
theorem c4_witness :
    (calculate_project_cost [(.NO_MATCH, rateTenCents)] [(.NO_MATCH, 400)] (some 50)).total = 50 ∧
    (calculate_project_cost [(.NO_MATCH, rateTenCents)] [(.NO_MATCH, 400)]
      (some 50)).minimum_fee_applied = true ∧
    (calculate_project_cost [(.NO_MATCH, rateTenCents)] [(.NO_MATCH, 600)] (some 50)).subtotal = 60 ∧
    (calculate_project_cost [(.NO_MATCH, rateTenCents)] [(.NO_MATCH, 600)] (some 50)).total = 60 ∧
    (calculate_project_cost [(.NO_MATCH, rateTenCents)] [(.NO_MATCH, 600)]
      (some 50)).minimum_fee_applied = false := by
  have h40 := c4_project_minimum_fee [(.NO_MATCH, rateTenCents)] [(.NO_MATCH, 400)]
    (some 50) (by decide)
  have h60 := c4_project_minimum_fee [(.NO_MATCH, rateTenCents)] [(.NO_MATCH, 600)]
    (some 50) (by decide)
  obtain ⟨ha, hb⟩ := h40.2.2.1 50 rfl (by decide)
  obtain ⟨hc, hd⟩ := h60.2.2.2.1 50 rfl (by decide)
  have hsub : (calculate_project_cost [(.NO_MATCH, rateTenCents)] [(.NO_MATCH, 600)]
      (some 50)).subtotal = 60 := by decide
  exact ⟨ha, hb, hsub, by rw [hc, hsub], hd⟩

/-- C8 counterexample: one No-Match word at a 0.025 EUR rate gives an
exact raw total of 0.025; the code's grand total quantization yields
0.02 (Decimal's default ROUND_HALF_EVEN), while the round-half-up
quantization the claim asserts yields 0.03. -/
theorem c8_counterexample :
    analysisOneWord.rawTotalCost [(.NO_MATCH, Rat.divInt 1 40)] 70 = .ok (Rat.divInt 1 40) ∧
    analysisOneWord.calculate_total_cost [(.NO_MATCH, Rat.divInt 1 40)] 70 =
      .ok (Rat.divInt 2 100) ∧
    quantizeHalfUp 2 (Rat.divInt 1 40) = Rat.divInt 3 100 ∧
    Rat.divInt 2 100 ≠ Rat.divInt 3 100 := by
  refine ⟨by decide, by decide, ?_, by decide⟩
  rw [quantizeHalfUp, roundHalfUp]
  rw [Rat.divInt_eq_div, Rat.divInt_eq_div]
  rw [if_pos (by norm_num)]
  norm_num

/-- C8 (amended): monetary values are computed in exact decimal
arithmetic; the grand total is quantized to 2 decimal places and
per-word rates to 4 decimal places (on Rate construction and update),
but with Python Decimal's default rounding ROUND_HALF_EVEN (banker's
rounding), not round-half-up: each quantization lands on an exact
multiple of the quantum within half a quantum of the true value, and
both 0.025 and 0.015 quantize to 0.02. -/
theorem c8_decimal_quantization :
    (∀ (fa : FileAnalysisData) (rates : List (MatchCategoryType × ℚ)) (p : Int),
      fa.calculate_total_cost rates p = (fa.rawTotalCost rates p).map (quantizeHalfEven 2)) ∧
    (∀ q : ℚ, ∃ n : ℤ, quantizeHalfEven 2 q = (n : ℚ) / 10 ^ 2 ∧
      |quantizeHalfEven 2 q - q| ≤ 1 / (2 * 10 ^ 2)) ∧
    (∀ r : Rate, ∃ n : ℤ, (Rate.postInit r).rate_per_word = (n : ℚ) / 10 ^ 4 ∧
      |(Rate.postInit r).rate_per_word - max 0 r.rate_per_word| ≤ 1 / (2 * 10 ^ 4)) ∧
    (∀ (r : Rate) (nr : ℚ) (mf : Option ℚ) (emf : Option Bool),
      ∃ n : ℤ, (r.update_rate nr mf emf).rate_per_word = (n : ℚ) / 10 ^ 4) ∧
    quantizeHalfEven 2 (Rat.divInt 1 40) = Rat.divInt 2 100 ∧
    quantizeHalfEven 2 (Rat.divInt 3 200) = Rat.divInt 2 100 := by
  refine ⟨fun fa rates p => rfl, ?_, ?_, ?_, by decide, by decide⟩
  · intro q
    obtain ⟨n, hn⟩ := quantizeHalfEven_isMultiple 2 q
    exact ⟨n, hn, quantizeHalfEven_close 2 q⟩
  · intro r
    have hfield : (Rate.postInit r).rate_per_word =
        quantizeHalfEven 4 (qMax 0 r.rate_per_word) := rfl
    obtain ⟨n, hn⟩ := quantizeHalfEven_isMultiple 4 (qMax 0 r.rate_per_word)
    refine ⟨n, by rw [hfield, hn], ?_⟩
    rw [hfield, ← qMax_eq]
    exact quantizeHalfEven_close 4 (qMax 0 r.rate_per_word)
  · intro r nr mf emf
    have hfield : (r.update_rate nr mf emf).rate_per_word =
        quantizeHalfEven 4 (qMax 0 nr) := rfl
    obtain ⟨n, hn⟩ := quantizeHalfEven_isMultiple 4 (qMax 0 nr)
    exact ⟨n, by rw [hfield, hn]⟩

/-- `assignFields` maps only the given field names: looking up any other
key yields nothing. -/
theorem assignFields_keys (fields : List String) :
    ∀ (s n : Nat) (k : String), k ∉ fields →
      ((assignFields fields s n).1.lookup k) = none := by
  induction fields with
  | nil =>
    intro s n k _
    simp [assignFields, List.lookup]
  | cons f fs ih =>
    intro s n k hk
    have hkf : (k == f) = false := by
      simp only [beq_eq_false_iff_ne, ne_eq]
      exact fun he => hk (he ▸ List.mem_cons_self f fs)
    have hktail : k ∉ fs := fun hm => hk (List.mem_cons_of_mem f hm)
    rw [assignFields]
    split_ifs with h
    · simp only [List.lookup, hkf]
      exact ih (s + 1) n k hktail
    · exact ih s n k hktail

/-- Once the column index has reached the number of columns,
`assignFields` maps nothing more. -/
theorem assignFields_stuck (fields : List String) :
    ∀ (s n : Nat), n ≤ s → (assignFields fields s n).1 = [] := by
  induction fields with
  | nil =>
    intro s n _
    rfl
  | cons f fs ih =>
    intro s n h
    rw [assignFields, if_neg (by omega)]
    exact ih s n h

/-- In the `with_characters` field list, a category whose `percent`
column was assigned also has its `characters` column assigned. -/
theorem assignFields_with_percent (s n : Nat)
    (h : (((assignFields ["segments", "words", "characters", "placeables", "percent"]
      s n).1).lookup "percent").isSome = true) :
    (((assignFields ["segments", "words", "characters", "placeables", "percent"]
      s n).1).lookup "characters").isSome = true := by
  by_cases h0 : s < n
  · by_cases h1 : s + 1 < n
    · by_cases h2 : s + 2 < n
      · simp only [assignFields, if_pos h0, if_pos h1, if_pos h2]
        simp +decide [List.lookup]
      · exfalso
        simp only [assignFields, if_pos h0, if_pos h1, if_neg h2] at h
        simp +decide [List.lookup] at h
    · exfalso
      simp only [assignFields, if_pos h0, if_neg h1] at h
      simp +decide [List.lookup] at h
  · exfalso
    rw [assignFields_stuck _ s n (by omega)] at h
    simp [List.lookup] at h

/-- Every category table built by `mapCategories` is an `assignFields`
result for some starting column. -/
theorem mapCategories_mem (fields : List String) (fpc n : Nat) :
    ∀ (names : List String) (start : Nat) (ct : MatchCategoryType)
      (cmap : List (String × Nat)),
      (ct, cmap) ∈ (mapCategories fields fpc n names start).1 →
      ∃ s, cmap = (assignFields fields s n).1 := by
  intro names
  induction names with
  | nil =>
    intro start ct cmap h
    simp [mapCategories] at h
  | cons name rest ih =>
    intro start ct cmap h
    rw [mapCategories] at h
    cases hm : map_category_name_to_type name with
    | some ct2 =>
      rw [hm] at h
      simp only [List.mem_cons] at h
      rcases h with heq | hmem
      · exact ⟨start, (Prod.mk.injEq _ _ _ _).mp heq |>.2⟩
      · exact ih _ _ _ hmem
    | none =>
      rw [hm] at h
      exact ih _ _ _ h

/-- The display name is injective on the category enumeration. -/
theorem value_injective :
    ∀ a b : MatchCategoryType, a.value = b.value → a = b := by
  intro a b h
  cases a <;> cases b <;> first | rfl | exact absurd h (by decide)

/-- Mapping a function over an `Except` yields `ok` exactly when the
underlying computation did. -/
theorem except_map_ok {α β : Type} (f : α → β) (x : Except PyError α) (y : β)
    (h : x.map f = .ok y) : ∃ v, x = .ok v ∧ y = f v := by
  cases x with
  | error e => exact absurd h (by simp [Except.map])
  | ok v =>
    refine ⟨v, rfl, ?_⟩
    have h2 : (Except.ok (f v) : Except PyError β) = Except.ok y := h
    exact (Except.ok.inj h2).symm

/-- A produced breakdown entry always carries the category's display
name as its key. -/
theorem breakdownEntry_key (rates : List (MatchCategoryType × Rate)) (mtp : Int)
    (ct : MatchCategoryType) (d : MatchCategoryData)
    (k : String) (e : CategoryCostEntry) (c : ℚ)
    (h : breakdownEntry rates mtp (ct, d) = .ok (some (k, e, c))) : k = ct.value := by
  rw [breakdownEntry] at h
  by_cases h0 : d.words ≤ 0
  · rw [if_pos h0] at h
    exact absurd h (by simp)
  · rw [if_neg h0] at h
    cases hlk : rates.lookup ct with
    | none =>
      rw [hlk] at h
      exact absurd h (by simp)
    | some rate =>
      rw [hlk] at h
      dsimp only at h
      by_cases hsup : ct.supports_mt_breakdown = true
      · rw [if_pos hsup] at h
        cases hwb : MatchCategoryData.get_cost_calculation_words d mtp with
        | error err =>
          rw [hwb] at h
          exact absurd h (by simp [Except.map])
        | ok wb =>
          rw [hwb] at h
          simp only [Except.map] at h
          have h2 := Except.ok.inj h
          split_ifs at h2
          · have h3 := Option.some.inj h2
            simpa using (congrArg Prod.fst h3).symm
          · have h3 := Option.some.inj h2
            simpa using (congrArg Prod.fst h3).symm
      · rw [if_neg hsup] at h
        have h2 := Except.ok.inj h
        have h3 := Option.some.inj h2
        simpa using (congrArg Prod.fst h3).symm

/-- Folding the breakdown step from an error accumulator keeps that
error. -/
theorem breakdown_foldl_error (rates : List (MatchCategoryType × Rate)) (mtp : Int)
    (err : PyError) :
    ∀ l : List (MatchCategoryType × MatchCategoryData),
      l.foldl (fun (acc : Except PyError (List (String × CategoryCostEntry) × ℚ)) p =>
        acc.bind (fun a =>
          (breakdownEntry rates mtp p).map (fun o =>
            match o with
            | none => a
            | some (k, e, c) => (a.1 ++ [(k, e)], qAdd a.2 c))))
        (.error err) = .error err := by
  intro l
  induction l with
  | nil => rfl
  | cons q t ih =>
    rw [List.foldl_cons]
    exact ih

/-- When the breakdown fold succeeds, the cost-entry list it built is
the `filterMap` of the per-category entry function, in category
order. -/
theorem breakdown_foldl_ok (rates : List (MatchCategoryType × Rate)) (mtp : Int) :
    ∀ (l : List (MatchCategoryType × MatchCategoryData))
      (acc b : List (String × CategoryCostEntry) × ℚ),
      l.foldl (fun (acc : Except PyError (List (String × CategoryCostEntry) × ℚ)) p =>
        acc.bind (fun a =>
          (breakdownEntry rates mtp p).map (fun o =>
            match o with
            | none => a
            | some (k, e, c) => (a.1 ++ [(k, e)], qAdd a.2 c))))
        (.ok acc) = .ok b →
      b.1 = acc.1 ++ l.filterMap (fun q =>
        match breakdownEntry rates mtp q with
        | .ok (some (k, e, _)) => some (k, e)
        | _ => none) := by
  intro l
  induction l with
  | nil =>
    intro acc b h
    have hb : acc = b := Except.ok.inj h
    rw [← hb]
    simp
  | cons q t ih =>
    intro acc b h
    simp only [List.foldl_cons] at h
    rw [List.filterMap_cons]
    cases hq : breakdownEntry rates mtp q with
    | error err =>
      exfalso
      rw [hq] at h
      have h3 : t.foldl (fun (acc : Except PyError (List (String × CategoryCostEntry) × ℚ)) p =>
          acc.bind (fun a =>
            (breakdownEntry rates mtp p).map (fun o =>
              match o with
              | none => a
              | some (k, e, c) => (a.1 ++ [(k, e)], qAdd a.2 c))))
          (.error err) = .ok b := h
      rw [breakdown_foldl_error rates mtp err t] at h3
      exact absurd h3 (by simp)
    | ok o =>
      rw [hq] at h
      cases o with
      | none =>
        exact ih acc b h
      | some tr =>
        obtain ⟨k, e, c⟩ := tr
        have h2 := ih (acc.1 ++ [(k, e)], qAdd acc.2 c) b h
        rw [h2]
        simp

/-- Looking a category's display name up in the built cost list finds
exactly that category's entry, provided the analysis has no duplicate
category keys. -/
theorem breakdown_lookup (rates : List (MatchCategoryType × Rate)) (mtp : Int) :
    ∀ (l : List (MatchCategoryType × MatchCategoryData)),
      (l.map Prod.fst).Nodup →
      ∀ (ct : MatchCategoryType) (d : MatchCategoryData), (ct, d) ∈ l →
      ∀ (k : String) (e : CategoryCostEntry) (c : ℚ),
        breakdownEntry rates mtp (ct, d) = .ok (some (k, e, c)) →
        (l.filterMap (fun q =>
          match breakdownEntry rates mtp q with
          | .ok (some (k2, e2, _)) => some (k2, e2)
          | _ => none)).lookup ct.value = some e := by
  intro l
  induction l with
  | nil =>
    intro _ ct d h
    simp at h
  | cons q t ih =>
    intro hnd ct d hmem k e c hent
    have hndt : (t.map Prod.fst).Nodup := (List.nodup_cons.mp (by simpa using hnd)).2
    rcases List.mem_cons.mp hmem with heq | hmem2
    · subst heq
      have hk := breakdownEntry_key rates mtp ct d k e c hent
      subst hk
      simp only [List.filterMap_cons, hent]
      simp [List.lookup]
    · have hne : q.1 ≠ ct := by
        have hnotin : q.1 ∉ t.map Prod.fst := (List.nodup_cons.mp (by simpa using hnd)).1
        intro hqe
        exact hnotin (hqe ▸ List.mem_map_of_mem Prod.fst hmem2)
      simp only [List.filterMap_cons]
      cases hq : breakdownEntry rates mtp q with
      | error err =>
        exact ih hndt ct d hmem2 k e c hent
      | ok o =>
        cases o with
        | none =>
          exact ih hndt ct d hmem2 k e c hent
        | some tr =>
          obtain ⟨k2, e2, c2⟩ := tr
          have hq2 : breakdownEntry rates mtp (q.1, q.2) = .ok (some (k2, e2, c2)) := by
            rw [← hq]
          have hk2 : k2 = q.1.value := breakdownEntry_key rates mtp q.1 q.2 k2 e2 c2 hq2
          have hvne : (ct.value == k2) = false := by
            rw [hk2]
            refine beq_eq_false_iff_ne.mpr ?_
            intro hv
            exact hne (value_injective ct q.1 hv).symm
          show List.lookup ct.value ((k2, e2) ::
            t.filterMap (fun q =>
              match breakdownEntry rates mtp q with
              | .ok (some (k2, e2, _)) => some (k2, e2)
              | _ => none)) = some e
          rw [List.lookup, hvne]
          exact ih hndt ct d hmem2 k e c hent

/-- C3: when the breakdown computation succeeds, a category with
positive words and a resolved rate is recorded under its display name:
when it is the 100%-match category and the TM/MT split yields MT words,
its entry carries the TM and MT sub-costs separately and its cost is
`tm_words` times the category's rate plus `mt_words` times the MT-Match
rate (falling back to the category's rate when no MT-Match rate
exists); every other such category costs `words` times
`rate_per_word`. -/
theorem c3_breakdown_costs (analysis : FileAnalysisData)
    (rates : List (MatchCategoryType × Rate)) (mtp : Int)
    (hnd : (analysis.categories.map Prod.fst).Nodup)
    (ct : MatchCategoryType) (d : MatchCategoryData)
    (hmem : (ct, d) ∈ analysis.categories) (hw : 0 < d.words)
    (rate : Rate) (hrate : rates.lookup ct = some rate)
    (b : CostBreakdown)
    (hok : calculate_breakdown analysis rates mtp = .ok b) :
    (∀ w : CostWords, d.get_cost_calculation_words mtp = .ok w →
      ct.supports_mt_breakdown → w.mt > 0 →
      b.category_costs.lookup ct.value =
        some (.mtSplit d.words w.tm w.mt
          rate.rate_per_word ((rates.lookup .MT_MATCH).getD rate).rate_per_word
          ((w.tm : ℚ) * rate.rate_per_word)
          ((w.mt : ℚ) * ((rates.lookup .MT_MATCH).getD rate).rate_per_word)
          ((w.tm : ℚ) * rate.rate_per_word +
            (w.mt : ℚ) * ((rates.lookup .MT_MATCH).getD rate).rate_per_word)
          d.segments d.percent)) ∧
    (∀ w : CostWords, d.get_cost_calculation_words mtp = .ok w → w.mt ≤ 0 →
      b.category_costs.lookup ct.value =
        some (.standard d.words rate.rate_per_word ((d.words : ℚ) * rate.rate_per_word)
          d.segments d.percent)) ∧
    (¬ ct.supports_mt_breakdown →
      b.category_costs.lookup ct.value =
        some (.standard d.words rate.rate_per_word ((d.words : ℚ) * rate.rate_per_word)
          d.segments d.percent)) := by
  rw [calculate_breakdown] at hok
  obtain ⟨built, hf, hb⟩ := except_map_ok _ _ _ hok
  have hcosts : b.category_costs = analysis.categories.filterMap (fun q =>
      match breakdownEntry rates mtp q with
      | .ok (some (k2, e2, _)) => some (k2, e2)
      | _ => none) := by
    rw [hb]
    simpa using breakdown_foldl_ok rates mtp analysis.categories ([], 0) built hf
  have hstd : breakdownEntry rates mtp (ct, d) = .ok (some (ct.value,
      CategoryCostEntry.standard d.words rate.rate_per_word
        ((d.words : ℚ) * rate.rate_per_word) d.segments d.percent,
      (d.words : ℚ) * rate.rate_per_word)) →
      b.category_costs.lookup ct.value = some (.standard d.words rate.rate_per_word
        ((d.words : ℚ) * rate.rate_per_word) d.segments d.percent) := by
    intro hent
    rw [hcosts]
    exact breakdown_lookup rates mtp analysis.categories hnd ct d hmem _ _ _ hent
  refine ⟨?_, ?_, ?_⟩
  · intro w hw2 hsup hmt
    have hent : breakdownEntry rates mtp (ct, d) = .ok (some (ct.value,
        CategoryCostEntry.mtSplit d.words w.tm w.mt
          rate.rate_per_word ((rates.lookup .MT_MATCH).getD rate).rate_per_word
          ((w.tm : ℚ) * rate.rate_per_word)
          ((w.mt : ℚ) * ((rates.lookup .MT_MATCH).getD rate).rate_per_word)
          ((w.tm : ℚ) * rate.rate_per_word +
            (w.mt : ℚ) * ((rates.lookup .MT_MATCH).getD rate).rate_per_word)
          d.segments d.percent,
        (w.tm : ℚ) * rate.rate_per_word +
          (w.mt : ℚ) * ((rates.lookup .MT_MATCH).getD rate).rate_per_word)) := by
      rw [breakdownEntry]
      rw [if_neg (show ¬ (ct, d).2.words ≤ 0 from not_le.mpr hw)]
      rw [hrate]
      dsimp only
      rw [if_pos hsup, hw2]
      simp only [Except.map]
      rw [if_pos hmt]
      simp [qMul_eq, qAdd_eq, Rat.divInt_one]
    rw [hcosts]
    exact breakdown_lookup rates mtp analysis.categories hnd ct d hmem _ _ _ hent
  · intro w hw2 hmt
    by_cases hsup : ct.supports_mt_breakdown = true
    · apply hstd
      rw [breakdownEntry]
      rw [if_neg (show ¬ (ct, d).2.words ≤ 0 from not_le.mpr hw)]
      rw [hrate]
      dsimp only
      rw [if_pos hsup, hw2]
      simp only [Except.map]
      rw [if_neg (not_lt.mpr hmt)]
      simp [qMul_eq, Rat.divInt_one]
    · apply hstd
      rw [breakdownEntry]
      rw [if_neg (show ¬ (ct, d).2.words ≤ 0 from not_le.mpr hw)]
      rw [hrate]
      dsimp only
      rw [if_neg hsup]
      simp [qMul_eq, Rat.divInt_one]
  · intro hsup
    apply hstd
    rw [breakdownEntry]
    rw [if_neg (show ¬ (ct, d).2.words ≤ 0 from not_le.mpr hw)]
    rw [hrate]
    dsimp only
    rw [if_neg hsup]
    simp [qMul_eq, Rat.divInt_one]

/-- C3 witness: the spec scenario - the exact-match category with 100
words at 70% MT, a 0.05 EUR TM rate and a 0.02 EUR MT rate - computes a
successful breakdown whose `100%` entry carries tm_words = 30,
mt_words = 70, sub-costs 1.50 and 1.40, and category cost 2.90. -/
theorem c3_witness :
    ∃ b : CostBreakdown,
      calculate_breakdown analysisExactHundred
        [(.EXACT_MATCH, rateFiveCents), (.MT_MATCH, rateTwoCents)] 70 = .ok b ∧
      b.category_costs.lookup "100%" =
        some (.mtSplit 100 30 70 (Rat.divInt 1 20) (Rat.divInt 1 50) (Rat.divInt 3 2)
          (Rat.divInt 7 5) (Rat.divInt 29 10) 0 (.finite 0)) := by
  have hok : calculate_breakdown analysisExactHundred
      [(.EXACT_MATCH, rateFiveCents), (.MT_MATCH, rateTwoCents)] 70 =
      .ok { category_costs := [("100%",
              CategoryCostEntry.mtSplit 100 30 70 (Rat.divInt 1 20) (Rat.divInt 1 50)
                (Rat.divInt 3 2) (Rat.divInt 7 5) (Rat.divInt 29 10) 0 (.finite 0))],
            subtotal := Rat.divInt 29 10,
            minimum_fee := 0,
            total_cost := Rat.divInt 29 10,
            minimum_fee_applied := false,
            total_words := 100,
            total_segments := 0,
            mt_percentage := 70 } := by decide
  refine ⟨_, hok, ?_⟩
  have h := (c3_breakdown_costs analysisExactHundred
      [(.EXACT_MATCH, rateFiveCents), (.MT_MATCH, rateTwoCents)] 70 (by decide)
      .EXACT_MATCH exactHundred (by decide) (by decide) rateFiveCents (by decide)
      _ hok).1 ⟨30, 70, 100⟩ (by decide) (by decide) (by decide)
  dsimp only at h
  have e3 : rateFiveCents.rate_per_word = Rat.divInt 1 20 := by decide
  have e4 : (([(MatchCategoryType.EXACT_MATCH, rateFiveCents),
      (MatchCategoryType.MT_MATCH, rateTwoCents)]).lookup
        MatchCategoryType.MT_MATCH).getD rateFiveCents = rateTwoCents := by decide
  have e5 : rateTwoCents.rate_per_word = Rat.divInt 1 50 := by decide
  have e6 : exactHundred.words = 100 := by decide
  have e7 : exactHundred.segments = 0 := by decide
  have e8 : exactHundred.percent = PyFloat.finite 0 := by decide
  rw [e4, e3, e5, e6, e7, e8] at h
  have v1 : ((30 : Int) : ℚ) * Rat.divInt 1 20 = Rat.divInt 3 2 := by
    rw [Rat.divInt_eq_div, Rat.divInt_eq_div]
    norm_num
  have v2 : ((70 : Int) : ℚ) * Rat.divInt 1 50 = Rat.divInt 7 5 := by
    rw [Rat.divInt_eq_div, Rat.divInt_eq_div]
    norm_num
  rw [v1, v2] at h
  have v3 : Rat.divInt 3 2 + Rat.divInt 7 5 = Rat.divInt 29 10 := by
    rw [Rat.divInt_eq_div, Rat.divInt_eq_div, Rat.divInt_eq_div]
    norm_num
  rw [v3] at h
  rw [show ("100%" : String) = MatchCategoryType.EXACT_MATCH.value from rfl]
  exact h

/-- C7: the serialization round-trip is impossible - the body of
`MatchCategoryData.to_dict` is a mispasted copy of
`FileAnalysisData.to_dict` whose first expression reads `self.filename`,
an attribute `MatchCategoryData` does not have, so serializing any
category raises `AttributeError`; since a constructed `FileAnalysisData`
always holds at least the 8 standard categories, `to_dict` on every
constructed analysis raises instead of producing a dictionary, and
`from_dict` can never be fed its output. -/
theorem c7_to_dict_raises :
    (∀ d : MatchCategoryData, d.to_dict = .error .attributeError) ∧
    (∀ (filename source_language target_language : String)
       (cats : List (MatchCategoryType × MatchCategoryData)),
      (mkFileAnalysisData filename source_language target_language cats).to_dict =
        .error .attributeError) := by
  refine ⟨fun d => rfl, fun filename src tgt cats => ?_⟩
  cases cats with
  | nil => rfl
  | cons p t => rfl

/-- C5 counterexample: a header pair classified `with_characters` (6
`Characters` sub-headers among 10 columns) in which the second
recognized category, `Repetitions`, runs past the end of the header and
is mapped with only `segments` and `words` - no `characters` column -
although the claim says every mapped category of a `with_characters`
mapping records one. -/
theorem c5_counterexample :
    (mapColumnsCore "Context Match;;;Repetitions"
      "Characters;Characters;Characters;Characters;Characters;Characters;x;x;x;x").format_type
        = "with_characters" ∧
    (mapColumnsCore "Context Match;;;Repetitions"
      "Characters;Characters;Characters;Characters;Characters;Characters;x;x;x;x").categories.lookup
        .REPETITIONS = some [("segments", 8), ("words", 9)] ∧
    ([("segments", 8), ("words", 9)] : List (String × Nat)).lookup "characters" = none ∧
    validate_mapping (mapColumnsCore "Context Match;;;Repetitions"
      "Characters;Characters;Characters;Characters;Characters;Characters;x;x;x;x") 10 = true := by
  decide

/-- C5 (amended): the classification is `with_characters` iff the second
header line has at least 45 columns or at least 6 `Characters` headers;
in a `without_characters` mapping no category records a characters
column; in a `with_characters` mapping every mapped category that
received its full five fields (in particular, whose `percent` column is
recorded) records a characters column - a category truncated by the end
of the header may be mapped without one. -/
theorem c5_format_detection (ha hb : String) :
    ((mapColumnsCore ha hb).format_type = "with_characters" ↔
      numColumns hb ≥ 45 ∨ charactersCount hb ≥ 6) ∧
    ∀ (ct : MatchCategoryType) (cmap : List (String × Nat)),
      (ct, cmap) ∈ (mapColumnsCore ha hb).categories →
      ((mapColumnsCore ha hb).format_type = "without_characters" →
        cmap.lookup "characters" = none) ∧
      ((mapColumnsCore ha hb).format_type = "with_characters" →
        (cmap.lookup "percent").isSome → (cmap.lookup "characters").isSome) := by
  have hfmt : (mapColumnsCore ha hb).format_type = detectFormatCore hb := rfl
  constructor
  · rw [hfmt, detectFormatCore]
    by_cases hc : numColumns hb ≥ 45 ∨ charactersCount hb ≥ 6
    · rw [if_pos hc]
      simp [hc]
    · rw [if_neg hc]
      constructor
      · intro he
        exact absurd he (by decide)
      · intro hcc
        exact absurd hcc hc
  · intro ct cmap hmem
    constructor
    · intro hw
      have hne : ¬ (detect_format [ha, hb] = "with_characters") := by
        rw [show detect_format [ha, hb] = detectFormatCore hb from rfl, ← hfmt, hw]
        decide
      have hcats : (mapColumnsCore ha hb).categories =
          (mapCategories ["segments", "words", "placeables", "percent"] 4
            (columnHeadersOf hb).length (extract_categories_from_header ha) 3).1 := by
        show (create_column_mapping (detect_format [ha, hb])
          (extract_categories_from_header ha) (columnHeadersOf hb)).categories = _
        simp only [create_column_mapping, if_neg hne]
      rw [hcats] at hmem
      obtain ⟨s, hs⟩ := mapCategories_mem _ _ _ _ _ _ _ hmem
      rw [hs]
      exact assignFields_keys _ s _ "characters" (by decide)
    · intro hw hp
      have heq : detect_format [ha, hb] = "with_characters" := by
        rw [show detect_format [ha, hb] = detectFormatCore hb from rfl, ← hfmt, hw]
      have hcats : (mapColumnsCore ha hb).categories =
          (mapCategories ["segments", "words", "characters", "placeables", "percent"] 5
            (columnHeadersOf hb).length (extract_categories_from_header ha) 3).1 := by
        show (create_column_mapping (detect_format [ha, hb])
          (extract_categories_from_header ha) (columnHeadersOf hb)).categories = _
        simp only [create_column_mapping, if_pos heq]
      rw [hcats] at hmem
      obtain ⟨s, hs⟩ := mapCategories_mem _ _ _ _ _ _ _ hmem
      rw [hs] at hp ⊢
      exact assignFields_with_percent s _ hp

/-- C5 witness: in the concrete `with_characters` counterexample header,
the first category (`Context Match`) has all five fields, and the
amended claim applied to it yields its characters column. -/
theorem c5_witness :
    (((mapColumnsCore "Context Match;;;Repetitions"
      "Characters;Characters;Characters;Characters;Characters;Characters;x;x;x;x").categories.lookup
        .CONTEXT_MATCH).getD []).lookup "characters" = some 5 := by
  have h := (c5_format_detection "Context Match;;;Repetitions"
    "Characters;Characters;Characters;Characters;Characters;Characters;x;x;x;x").2
    .CONTEXT_MATCH
    [("segments", 3), ("words", 4), ("characters", 5), ("placeables", 6), ("percent", 7)]
    (by decide)
  have h2 := (h.2 (by decide) (by decide))
  decide

/-- C6: mapping validation accepts exactly when a `File` fixed-column
entry exists, at least one category is mapped, and every recorded column
index is within `[0, total_columns)`; and when validation rejects against
the first data row, parsing returns no analysis and extracts nothing. -/
theorem c6_validate_mapping (m : ColumnMapping) :
    (∀ total_columns : Nat,
      validate_mapping m total_columns = true ↔
        ((m.fixed_columns.lookup "File").isSome ∧ m.categories ≠ [] ∧
          ∀ i ∈ m.allIndices, i < total_columns)) ∧
    (∀ (first_row : String) (rest : List String),
      validate_mapping m (splitDataRow first_row).length = false →
      parse_data_rows (first_row :: rest) m = .ok none) := by
  constructor
  · intro total_columns
    rw [validate_mapping]
    split_ifs with h1 h2
    · rw [Option.isNone_iff_eq_none] at h1
      simp [h1]
    · rw [List.isEmpty_iff] at h2
      simp [h2]
    · rw [Option.isNone_iff_eq_none] at h1
      rw [List.isEmpty_iff] at h2
      simp [List.all_eq_true, Option.isSome_iff_ne_none, h1, h2]
  · intro first_row rest hval
    rw [parse_data_rows]
    rw [if_pos (by rw [hval]; simp)]
    rfl

/-- C6 witness: a mapping with no categories is rejected, and parsing a
data row against it yields no analysis. -/
theorem c6_witness :
    parse_data_rows ["a;b;c"] emptyCategoriesMapping = .ok none :=
  (c6_validate_mapping emptyCategoriesMapping).2 "a;b;c" [] (by decide)

/-- C9 counterexample: the int-path safe conversion is not total - the
cell `"9.9e999"` contains a dot, `float` parses it to infinity, and
`int(float(...))` raises `OverflowError`, which the
`except (ValueError, TypeError)` clause does not catch. -/
theorem c9_counterexample :
    safe_int_conversion ["9.9e999"] 0 = .error .overflowError := by
  decide

/-- C9 (amended): the safe numeric conversions never raise except that
the int path raises OverflowError on a dotted numeral whose float value
overflows to infinity; on every other cell they are total, with
`""`/`"abc"`/`"12.0"`/`"12"` yielding 0/0/12/12 on the int path and
0.0/0.0/12.0/12.0 on the float path, and an out-of-range or negative
column index yielding 0 / 0.0. -/
theorem c9_safe_conversions :
    safe_int_conversion ["", "abc", "12.0", "12"] 0 = .ok 0 ∧
    safe_int_conversion ["", "abc", "12.0", "12"] 1 = .ok 0 ∧
    safe_int_conversion ["", "abc", "12.0", "12"] 2 = .ok 12 ∧
    safe_int_conversion ["", "abc", "12.0", "12"] 3 = .ok 12 ∧
    safe_float_conversion ["", "abc", "12.0", "12"] 0 = .finite 0 ∧
    safe_float_conversion ["", "abc", "12.0", "12"] 1 = .finite 0 ∧
    safe_float_conversion ["", "abc", "12.0", "12"] 2 = .finite 12 ∧
    safe_float_conversion ["", "abc", "12.0", "12"] 3 = .finite 12 ∧
    (∀ (row : List String) (i : Int), i < 0 ∨ (row.length : Int) ≤ i →
      safe_int_conversion row i = .ok 0 ∧ safe_float_conversion row i = .finite 0) ∧
    (∀ (row : List String) (i : Int),
      cellOverflows (row.getD i.toNat "") = false →
      ∃ n : Int, safe_int_conversion row i = .ok n) := by
  refine ⟨by decide, by decide, by decide, by decide, by decide, by decide, by decide,
    by decide, ?_, ?_⟩
  · intro row i hout
    exact ⟨by rw [safe_int_conversion, if_pos hout],
      by rw [safe_float_conversion, if_pos hout]⟩
  · intro row i hov
    rw [safe_int_conversion]
    by_cases hout : i < 0 ∨ (row.length : Int) ≤ i
    · rw [if_pos hout]
      exact ⟨0, rfl⟩
    · rw [if_neg hout]
      by_cases hemp : pyTrim (row.getD i.toNat "") = ""
      · rw [if_pos hemp]
        exact ⟨0, rfl⟩
      · rw [if_neg hemp]
        by_cases hdot : strContainsChar (pyTrim (row.getD i.toNat "")) '.' = true
        · rw [if_pos hdot]
          cases hf : pyFloatOfString (pyTrim (row.getD i.toNat "")) with
          | none => exact ⟨0, rfl⟩
          | some f =>
            cases f with
            | finite q => exact ⟨ratTrunc q, rfl⟩
            | nan => exact ⟨0, rfl⟩
            | inf =>
              exfalso
              rw [cellOverflows] at hov
              simp only [hdot, hf, Bool.true_and] at hov
              exact absurd hov (by simp)
            | neginf =>
              exfalso
              rw [cellOverflows] at hov
              simp only [hdot, hf, Bool.true_and] at hov
              exact absurd hov (by simp)
        · rw [if_neg hdot]
          cases pyIntOfString (pyTrim (row.getD i.toNat "")) with
          | none => exact ⟨0, rfl⟩
          | some n => exact ⟨n, rfl⟩

/-- C9 witness: the amended statement applied at concrete inputs - an
out-of-range index yields 0 and 0.0, and the non-overflowing cell
`"12.0"` is converted without an exception. -/
theorem c9_witness :
    (safe_int_conversion ["5"] 7 = .ok 0 ∧ safe_float_conversion ["5"] 7 = .finite 0) ∧
    (∃ n : Int, safe_int_conversion ["12.0"] 0 = .ok n) := by
  refine ⟨?_, ?_⟩
  · exact (c9_safe_conversions).2.2.2.2.2.2.2.2.1 ["5"] 7 (by decide)
  · exact (c9_safe_conversions).2.2.2.2.2.2.2.2.2 ["12.0"] 0 (by decide)

/-- C10 witness: for the concrete general 0.05 EUR rate, resolution
returns it and its client id is indeed not 0; and on the concrete
client-0 store, querying with client 0 equals querying with None. -/
theorem c10_witness :
    rateFiveCents.client_id ≠ some 0 ∧
    resolve_rate_hierarchy [rateClientZero] 1 1 1 (some 0) =
      resolve_rate_hierarchy [rateClientZero] 1 1 1 none :=
  ⟨(c10_client_zero_query [rateFiveCents] 1 1 3).2 none rateFiveCents (by decide),
   (c10_client_zero_query [rateClientZero] 1 1 1).1⟩

end TCC
